import Mathlib

/-!
# Verification of the rocrate-action-recorder crate synthesis core

A shallow embedding of `src/rocrate_action_recorder/core.py`: the crate
synthesis and merge engine that records CLI invocations into an RO-Crate
provenance document, plus the `playback` reader.

Modelling conventions:

* Filesystem paths are lists of resolved components (`List String`), the
  result of Python's `Path.resolve()`; the crate root is such a list as well.
* The provenance document is the `Crate` structure: the entity graph plus the
  root summary entity's fields (`name`, `description`, `license`,
  `datePublished`, `hasPart`, `conformsTo`) which the underlying crate
  library keeps on the root dataset.
* The on-disk document is `Option Crate` (`none` = no
  `ro-crate-metadata.json` file); loading parses it back unchanged and
  `crate.metadata.write` replaces it with the updated crate.
* Timestamps are their ISO-8601 strings (the code only ever stores
  `datetime.isoformat()` results and compares them lexicographically).
* `path.stat().st_size` and MIME guessing are reads of the ambient
  filesystem, passed in as a `FileSystem` record per recording call.
* Fallible code returns `Except RecErr`; `RecErr.pathOutsideRoot` is the
  `ValueError` raised by `get_relative_path`.

The entity-graph primitives (`Crate.get`, `Crate.add`) and the trailing
separator on directory identifiers live in the external `rocrate` library;
they are modelled from the specification (§4.2 EntityGraph, §4.3 identity
policy) and corroborated by the repository's tests.
-/

namespace RocrateActionRecorder

/-- `Program` dataclass: name, description (subcommands are irrelevant to the
core recording path and omitted). -/
structure Program where
  name : String
  description : String
deriving DecidableEq, Repr

/-- `IOArgumentPath` dataclass: logical argument name, path value, help text. -/
structure IOArgumentPath where
  name : String
  path : List String
  help : String
deriving DecidableEq, Repr

/-- `IOArgumentPaths` dataclass: the four input/output path groups. -/
structure IOArgumentPaths where
  input_files : List IOArgumentPath := []
  output_files : List IOArgumentPath := []
  input_dirs : List IOArgumentPath := []
  output_dirs : List IOArgumentPath := []
deriving DecidableEq, Repr

/-- Discriminator corresponding to the `@type` of the entities the recorder
creates (`File`, `Dataset`, `Person`, `SoftwareApplication`, `CreateAction`,
`CreativeWork`). -/
inductive EntityKind where
  | file
  | dataset
  | person
  | softwareApplication
  | createAction
  | creativeWork
deriving DecidableEq, Repr

/-- An entity of the provenance graph: its `@id`, its kind, and the
properties the recorder reads or writes.  Fields a given kind does not use
keep their defaults; `version` and `contentSize` are `Option` because the
code distinguishes an absent property from an empty one there. -/
structure Entity where
  id : String
  kind : EntityKind
  name : String := ""
  description : String := ""
  version : Option String := none
  contentSize : Option Nat := none
  encodingFormat : String := ""
  startTime : String := ""
  endTime : String := ""
  agent : String := ""
  instrument : String := ""
  object : List String := []
  result : List String := []
deriving DecidableEq, Repr

/-- The in-memory crate: the entity graph plus the root summary entity's
fields (empty string = absent property). -/
structure Crate where
  graph : List Entity := []
  rootName : String := ""
  rootDescription : String := ""
  rootLicense : String := ""
  datePublished : String := ""
  hasPart : List String := []
  conformsTo : String := ""
  extraContexts : List String := []
deriving DecidableEq, Repr

/-- The error raised by `get_relative_path`
(`ValueError: Path ... is outside the crate root ...`). -/
inductive RecErr where
  | pathOutsideRoot (path : List String) (root : List String)
deriving DecidableEq, Repr

/-- The ambient filesystem at the time of one recording call:
`size` is `path.stat().st_size`, `mime` is `mimetypes.guess_type`
(with the `application/octet-stream` fallback already applied). -/
structure FileSystem where
  size : List String → Nat
  mime : List String → String

/-- Modelled from the spec: §4.2 EntityGraph `get(id) -> Entity | None`
(the external crate library dereferences entities by identifier). -/
def Crate.get (c : Crate) (i : String) : Option Entity :=
  c.graph.find? (fun e => e.id == i)

/-- Modelled from the spec: §4.2 EntityGraph `upsert` — inserting an entity
whose identifier is already present replaces that entry, otherwise the
entity is appended. -/
def upsertEntity : List Entity → Entity → List Entity
  | [], e => [e]
  | x :: xs, e => if x.id == e.id then e :: xs else x :: upsertEntity xs e

/-- File and Dataset entities are data entities; the rest are contextual. -/
def EntityKind.isData : EntityKind → Bool
  | .file => true
  | .dataset => true
  | _ => false

/-- Modelled from the spec: §4.2 EntityGraph insertion, plus §3 root summary
`hasPart` = union of all File/Directory identifiers ever seen (the external
crate library appends each new data entity to the root dataset's `hasPart`). -/
def Crate.add (c : Crate) (e : Entity) : Crate :=
  { c with
    graph := upsertEntity c.graph e
    hasPart :=
      if e.kind.isData && !(c.hasPart.contains e.id) then c.hasPart ++ [e.id]
      else c.hasPart }

/-- Update every graph entry carrying the given identifier (the Python code
mutates the entity object the graph stores, in place). -/
def updateById (g : List Entity) (i : String) (f : Entity → Entity) : List Entity :=
  g.map (fun e => if e.id == i then f e else e)

/-- `get_relative_path(path, root)`: `apath.relative_to(root)` succeeds
exactly when the resolved root is a prefix of the resolved path, returning
the remaining components; otherwise the containment `ValueError` is raised. -/
def get_relative_path (path root : List String) : Except RecErr (List String) :=
  if root.isPrefixOf path then .ok (path.drop root.length)
  else .error (.pathOutsideRoot path root)

/-- `str(rpath)` for a relative `Path`: components joined by the separator,
`"."` for the empty relative path. -/
def relPathStr (comps : List String) : String :=
  match comps with
  | [] => "."
  | cs => String.intercalate "/" cs

/-- The in-place property refresh `add_file` applies to an existing File
entity: `existing_file.properties.update({description, contentSize,
encodingFormat})`. -/
def refreshFileProps (fs : FileSystem) (ioarg : IOArgumentPath) (e : Entity) :
    Entity :=
  { e with
    description := ioarg.help
    contentSize := some (fs.size ioarg.path)
    encodingFormat := fs.mime ioarg.path }

/-- `add_file`: resolve the path, then either refresh the existing File
entity's `description`/`contentSize`/`encodingFormat` in place, or create
and add a new File entity carrying `name`, `description`, `contentSize`
and `encodingFormat`. Returns the crate and the File entity. -/
def add_file (fs : FileSystem) (crate_root : List String) (crate : Crate)
    (ioarg : IOArgumentPath) : Except RecErr (Crate × Entity) := do
  let rpath ← get_relative_path ioarg.path crate_root
  let identifier := relPathStr rpath
  let fresh : Entity :=
    { id := identifier
      kind := .file
      name := identifier
      description := ioarg.help
      contentSize := some (fs.size ioarg.path)
      encodingFormat := fs.mime ioarg.path }
  match crate.get identifier with
  | some existing =>
    if existing.kind = .file then
      pure ({ crate with
        graph := updateById crate.graph identifier (refreshFileProps fs ioarg) },
        refreshFileProps fs ioarg existing)
    else
      pure (crate.add fresh, fresh)
  | none => pure (crate.add fresh, fresh)

/-- `add_files`: add each file in order, threading the crate. -/
def add_files (fs : FileSystem) (crate_root : List String) (crate : Crate) :
    List IOArgumentPath → Except RecErr (Crate × List Entity)
  | [] => pure (crate, [])
  | a :: rest => do
    let (c₁, e) ← add_file fs crate_root crate a
    let (c₂, es) ← add_files fs crate_root c₁ rest
    pure (c₂, e :: es)

/-- `add_dir`: resolve the path; the lookup uses the bare relative
identifier, while the created Dataset entity's identifier carries the
trailing separator. Modelled from the spec: §4.3 "directories additionally
carry a trailing path separator" — in the source this separator is applied
by the external crate library's `Dataset` identifier formatting. -/
def add_dir (crate_root : List String) (crate : Crate)
    (ioarg : IOArgumentPath) : Except RecErr (Crate × Entity) := do
  let rpath ← get_relative_path ioarg.path crate_root
  let identifier := relPathStr rpath
  let ds : Entity :=
    { id := identifier ++ "/"
      kind := .dataset
      name := identifier }
  match crate.get identifier with
  | some existing =>
    if existing.kind = .dataset then
      pure (crate, existing)
    else
      pure (crate.add ds, ds)
  | none => pure (crate.add ds, ds)

/-- `add_dirs`: add each directory in order, threading the crate. -/
def add_dirs (crate_root : List String) (crate : Crate) :
    List IOArgumentPath → Except RecErr (Crate × List Entity)
  | [] => pure (crate, [])
  | a :: rest => do
    let (c₁, e) ← add_dir crate_root crate a
    let (c₂, es) ← add_dirs crate_root c₁ rest
    pure (c₂, e :: es)

/-- The SoftwareApplication identifier:
`f"{name}@{version}"` if the version string is truthy, else the bare name. -/
def softwareId (name version : String) : String :=
  if version ≠ "" then name ++ "@" ++ version else name

/-- `build_software_application`: the SoftwareApplication entity with its
identifier and `name`/`description`/`version` properties. -/
def build_software_application (program : Program) (software_version : String) :
    Entity :=
  { id := softwareId program.name software_version
    kind := .softwareApplication
    name := program.name
    description := program.description
    version := some software_version }

/-- `add_software_application`: look the identifier up; only add (upsert)
the built entity when there is no entry with that identifier whose stored
`version` property equals this call's version. -/
def add_software_application (crate : Crate) (program : Program)
    (software_version : String) : Crate × Entity :=
  let software_app := build_software_application program software_version
  let sa := crate.get software_app.id
  let same_version :=
    match sa with
    | some e => e.version == some software_version
    | none => false
  if same_version then (crate, software_app)
  else (crate.add software_app, software_app)

/-- `add_agent`: a Person entity keyed by the username, added only when
absent; the (fresh) Person value is returned either way. -/
def add_agent (crate : Crate) (current_user : String) : Crate × Entity :=
  let person : Entity := { id := current_user, kind := .person, name := current_user }
  match crate.get current_user with
  | some _ => (crate, person)
  | none => (crate.add person, person)

/-- `add_action`: if any entity already carries the action identifier the
call is a no-op; otherwise a CreateAction entity is added linking agent,
instrument, object and result by identifier, with the ISO timestamps. -/
def add_action (crate : Crate) (action_id : String)
    (start_time end_time : String) (software : Entity)
    (all_inputs all_outputs : List Entity) (agent : Entity) : Crate :=
  match crate.get action_id with
  | some _ => crate
  | none =>
    crate.add
      { id := action_id
        kind := .createAction
        name := action_id
        startTime := start_time
        endTime := end_time
        agent := agent.id
        instrument := software.id
        object := all_inputs.map (fun e => e.id)
        result := all_outputs.map (fun e => e.id) }

/-- `_unique_by_id`: deduplicate a list of entities by identifier, keeping
the first occurrence of each identifier. -/
def _unique_by_id (entities : List Entity) : List Entity :=
  go [] entities
where
  /-- The loop with its accumulated set of seen identifiers. -/
  go (seen : List String) : List Entity → List Entity
    | [] => []
    | e :: rest =>
      if seen.contains e.id then go seen rest
      else e :: go (e.id :: seen) rest

/-- The Process Run Crate profile identifier. -/
def processRunCrateId : String := "https://w3id.org/ro/wfrun/process/0.5"

/-- The workflow-run extra context URL. -/
def workflowRunContext : String := "https://w3id.org/ro/terms/workflow-run/context"

/-- The Process Run Crate profile CreativeWork entity. -/
def prcEntity : Entity :=
  { id := processRunCrateId
    kind := .creativeWork
    name := "Process Run Crate"
    version := some "0.5" }

/-- `conform_to_process_run_crate_profile`: add the profile CreativeWork if
absent, point the root's `conformsTo` at it, and register the extra context. -/
def conform_to_process_run_crate_profile (crate : Crate) : Crate :=
  let prc := prcEntity
  let c₁ := if (crate.get prc.id).isNone then crate.add prc else crate
  let c₂ := if c₁.conformsTo ≠ prc.id then { c₁ with conformsTo := prc.id } else c₁
  if c₂.extraContexts.contains workflowRunContext then c₂
  else { c₂ with extraContexts := c₂.extraContexts ++ [workflowRunContext] }

/-- The tail of `_update_crate`: set `license` only when a truthy license
was supplied, set `datePublished` to this call's end time, and set the root
`name`/`description` only when currently falsy. -/
def rootFinalize (c : Crate) (program : Program) (end_time : String)
    (dataset_license : Option String) : Crate :=
  let c₈ :=
    match dataset_license with
    | some l => if l ≠ "" then { c with rootLicense := l } else c
    | none => c
  let c₉ := { c₈ with datePublished := end_time }
  let c₁₀ :=
    if c₉.rootName = "" then
      { c₉ with rootName := "Files used by " ++ program.name }
    else c₉
  if c₁₀.rootDescription = "" then
    { c₁₀ with rootDescription :=
      "An RO-Crate recording the files and directories that were used as input or output by "
        ++ program.name ++ "." }
  else c₁₀

/-- `_update_crate`: the orchestration — profile, software, input files,
input dirs, output files, output dirs, agent, action (with deduplicated
links), then the root summary fields (`rootFinalize`). -/
def _update_crate (fs : FileSystem) (crate : Crate) (crate_root : List String)
    (program : Program) (software_version : String) (ioargs : IOArgumentPaths)
    (action_id start_time end_time current_user : String)
    (dataset_license : Option String) : Except RecErr Crate := do
  let c₀ := conform_to_process_run_crate_profile crate
  let (c₁, software) := add_software_application c₀ program software_version
  let (c₂, in_files) ← add_files fs crate_root c₁ ioargs.input_files
  let (c₃, in_dirs) ← add_dirs crate_root c₂ ioargs.input_dirs
  let all_inputs := in_files ++ in_dirs
  let (c₄, out_files) ← add_files fs crate_root c₃ ioargs.output_files
  let (c₅, out_dirs) ← add_dirs crate_root c₄ ioargs.output_dirs
  let all_outputs := out_files ++ out_dirs
  let (c₆, agent) := add_agent c₅ current_user
  let c₇ := add_action c₆ action_id start_time end_time software
    (_unique_by_id all_inputs) (_unique_by_id all_outputs) agent
  pure (rootFinalize c₇ program end_time dataset_license)

/-- `_record_run`: load the existing document if the metadata file exists
(else start from an empty crate), update it, and on success write it back.
The returned crate is the content `crate.metadata.write` persists. -/
def _record_run (fs : FileSystem) (crate_root : List String) (doc : Option Crate)
    (program : Program) (software_version : String) (ioargs : IOArgumentPaths)
    (action_id start_time end_time current_user : String)
    (dataset_license : Option String) : Except RecErr Crate :=
  let crate := doc.getD {}
  _update_crate fs crate crate_root program software_version ioargs
    action_id start_time end_time current_user dataset_license

/-- One recording call's parameters, as handed to `_record_run` by `record`
(after the out-of-scope username / end-time / version detection fallbacks). -/
structure RecordCall where
  fs : FileSystem
  program : Program
  software_version : String
  ioargs : IOArgumentPaths
  action_id : String
  start_time : String
  end_time : String
  current_user : String
  dataset_license : Option String := none

/-- Run `_record_run` for one packaged call. -/
def recordOnce (crate_root : List String) (doc : Option Crate) (c : RecordCall) :
    Except RecErr Crate :=
  _record_run c.fs crate_root doc c.program c.software_version c.ioargs
    c.action_id c.start_time c.end_time c.current_user c.dataset_license

/-- The on-disk document after a recording call: the exception raised by
`_update_crate` propagates before `crate.metadata.write` runs, so on error
the metadata file keeps its prior state. -/
def diskAfter (crate_root : List String) (doc : Option Crate) (c : RecordCall) :
    Option Crate :=
  match recordOnce crate_root doc c with
  | .ok c' => some c'
  | .error _ => doc

/-- The `(endTime, action id)` pairs `playback` collects: every CreateAction
entity whose identifier and `endTime` property are both truthy. -/
def playbackPairs (c : Crate) : List (String × String) :=
  (c.graph.filter (fun e => e.kind == .createAction)).filterMap
    (fun a => if a.id ≠ "" ∧ a.endTime ≠ "" then some (a.endTime, a.id) else none)

/-- `playback`: empty string when no metadata file exists; otherwise the
collected action identifiers sorted (stably) by `endTime` and joined by
newlines. -/
def playback (doc : Option Crate) : String :=
  match doc with
  | none => ""
  | some crate =>
    let actions := (playbackPairs crate).mergeSort (fun a b => a.1 ≤ b.1)
    String.intercalate "\n" (actions.map (fun x => x.2))

/-! ## Basic lemmas about the entity graph primitives -/

/-- The identifiers of a graph, in order. -/
def idsOf (g : List Entity) : List String := g.map (fun e => e.id)

theorem find?_upsertEntity_self (g : List Entity) (e : Entity) :
    (upsertEntity g e).find? (fun x => x.id == e.id) = some e := by
  induction g with
  | nil => simp [upsertEntity]
  | cons x xs ih =>
    by_cases h : x.id = e.id
    · simp [upsertEntity, h]
    · rw [upsertEntity]
      simp only [h, beq_iff_eq, if_false]
      rw [List.find?_cons_of_neg _ (by simpa using h), ih]

theorem find?_upsertEntity_ne (g : List Entity) (e : Entity) {j : String}
    (h : j ≠ e.id) :
    (upsertEntity g e).find? (fun x => x.id == j) = g.find? (fun x => x.id == j) := by
  induction g with
  | nil => simp [upsertEntity, h.symm]
  | cons x xs ih =>
    by_cases hx : x.id = e.id
    · rw [upsertEntity]
      simp only [hx, beq_self_eq_true, if_true]
      rw [List.find?_cons_of_neg _ (by simpa using h.symm),
        List.find?_cons_of_neg _ (by simp [hx, h.symm])]
    · rw [upsertEntity]
      simp only [hx, beq_iff_eq, if_false]
      by_cases hj : x.id = j
      · rw [List.find?_cons_of_pos _ (by simpa using hj),
          List.find?_cons_of_pos _ (by simpa using hj)]
      · rw [List.find?_cons_of_neg _ (by simpa using hj),
          List.find?_cons_of_neg _ (by simpa using hj), ih]

theorem idsOf_upsertEntity (g : List Entity) (e : Entity) :
    idsOf (upsertEntity g e) =
      if e.id ∈ idsOf g then idsOf g else idsOf g ++ [e.id] := by
  induction g with
  | nil => simp [upsertEntity, idsOf]
  | cons x xs ih =>
    by_cases h : x.id = e.id
    · simp [upsertEntity, h, idsOf]
    · rw [upsertEntity]
      simp only [h, beq_iff_eq, if_false]
      by_cases hm : e.id ∈ idsOf xs
      · simp only [idsOf, List.map_cons] at ih ⊢
        simp only [idsOf] at hm
        simp [hm, Ne.symm h, ih]
      · simp only [idsOf, List.map_cons] at ih ⊢
        simp only [idsOf] at hm
        simp [hm, Ne.symm h, ih]

theorem nodup_idsOf_upsertEntity (g : List Entity) (e : Entity)
    (h : (idsOf g).Nodup) : (idsOf (upsertEntity g e)).Nodup := by
  rw [idsOf_upsertEntity]
  by_cases hm : e.id ∈ idsOf g
  · simpa [hm]
  · simpa [hm, List.nodup_append] using h

theorem idsOf_updateById (g : List Entity) (i : String) (f : Entity → Entity)
    (hf : ∀ e, (f e).id = e.id) : idsOf (updateById g i f) = idsOf g := by
  unfold updateById idsOf
  rw [List.map_map]
  apply List.map_congr_left
  intro a _
  by_cases h : a.id = i <;> simp [h, hf]

theorem find?_updateById_ne (g : List Entity) (i : String) (f : Entity → Entity)
    (hf : ∀ e, (f e).id = e.id) {j : String} (h : j ≠ i) :
    (updateById g i f).find? (fun x => x.id == j) = g.find? (fun x => x.id == j) := by
  induction g with
  | nil => rfl
  | cons x xs ih =>
    rw [updateById, List.map_cons, ← updateById]
    by_cases hx : x.id = i
    · rw [if_pos (by simpa using hx), List.find?_cons_of_neg _ (by simp [hx, hf, h.symm]),
        List.find?_cons_of_neg _ (by simp [hx, h.symm]), ih]
    · by_cases hj : x.id = j
      · rw [if_neg (by simpa using hx), List.find?_cons_of_pos _ (by simpa using hj),
          List.find?_cons_of_pos _ (by simpa using hj)]
      · rw [if_neg (by simpa using hx), List.find?_cons_of_neg _ (by simpa using hj),
          List.find?_cons_of_neg _ (by simpa using hj), ih]

theorem find?_updateById_self (g : List Entity) (i : String) (f : Entity → Entity)
    (hf : ∀ e, (f e).id = e.id) :
    (updateById g i f).find? (fun x => x.id == i) =
      (g.find? (fun x => x.id == i)).map f := by
  induction g with
  | nil => rfl
  | cons x xs ih =>
    rw [updateById, List.map_cons, ← updateById]
    by_cases hx : x.id = i
    · rw [if_pos (by simpa using hx), List.find?_cons_of_pos _ (by simp [hf, hx]),
        List.find?_cons_of_pos _ (by simpa using hx)]
      simp
    · rw [if_neg (by simpa using hx), List.find?_cons_of_neg _ (by simpa using hx),
        List.find?_cons_of_neg _ (by simpa using hx), ih]

theorem get_add_self (c : Crate) (e : Entity) : (c.add e).get e.id = some e := by
  rw [Crate.add, Crate.get]
  exact find?_upsertEntity_self c.graph e

theorem get_add_ne (c : Crate) (e : Entity) {j : String} (h : j ≠ e.id) :
    (c.add e).get j = c.get j := by
  rw [Crate.add, Crate.get]
  exact find?_upsertEntity_ne c.graph e h

theorem eq_id_of_get_eq_some {c : Crate} {j : String} {e : Entity}
    (h : c.get j = some e) : e.id = j := by
  have := List.find?_some h
  simpa using this

theorem mem_graph_of_get_eq_some {c : Crate} {j : String} {e : Entity}
    (h : c.get j = some e) : e ∈ c.graph :=
  List.mem_of_find?_eq_some h

/-- In a graph with no duplicate identifiers, a successful lookup means the
filter by that identifier has exactly one element. -/
theorem length_filter_find? {g : List Entity} {j : String} {e : Entity}
    (hw : (idsOf g).Nodup) (h : g.find? (fun x => x.id == j) = some e) :
    (g.filter (fun x => x.id == j)).length = 1 := by
  induction g with
  | nil => simp at h
  | cons x xs ih =>
    rw [idsOf, List.map_cons, List.nodup_cons] at hw
    by_cases hx : x.id = j
    · rw [List.filter_cons_of_pos (by simpa using hx)]
      have hnil : xs.filter (fun y => y.id == j) = [] := by
        rw [List.filter_eq_nil_iff]
        intro a ha
        simp only [beq_iff_eq]
        intro haj
        exact hw.1 (by rw [← hx] at haj; exact haj ▸ List.mem_map_of_mem _ ha)
      simp [hnil]
    · rw [List.filter_cons_of_neg (by simpa using hx)]
      rw [List.find?_cons_of_neg _ (by simpa using hx)] at h
      exact ih hw.2 h

theorem length_filter_id_eq_one {c : Crate} {j : String} {e : Entity}
    (hw : (idsOf c.graph).Nodup) (h : c.get j = some e) :
    (c.graph.filter (fun x => x.id == j)).length = 1 :=
  length_filter_find? hw h

/-! ## Characterization of the individual recorder operations -/

/-- The identifier `add_file` computes for an in-root path. -/
def fileIdent (root : List String) (a : IOArgumentPath) : String :=
  relPathStr (a.path.drop root.length)

/-- The identifier of the Dataset entity `add_dir` creates for an in-root
path: the relative identifier with the trailing separator. -/
def dirIdent (root : List String) (a : IOArgumentPath) : String :=
  fileIdent root a ++ "/"

/-- The three root-summary text fields and the publication date of `c'`
agree with `c` (the graph-only operations never touch them). -/
def RootAgrees (c c' : Crate) : Prop :=
  c'.rootName = c.rootName ∧ c'.rootDescription = c.rootDescription ∧
    c'.rootLicense = c.rootLicense ∧ c'.datePublished = c.datePublished

theorem rootAgrees_refl (c : Crate) : RootAgrees c c := ⟨rfl, rfl, rfl, rfl⟩

theorem rootAgrees_trans {c₁ c₂ c₃ : Crate} (h : RootAgrees c₁ c₂)
    (h' : RootAgrees c₂ c₃) : RootAgrees c₁ c₃ :=
  ⟨h'.1.trans h.1, h'.2.1.trans h.2.1, h'.2.2.1.trans h.2.2.1, h'.2.2.2.trans h.2.2.2⟩

theorem rootAgrees_add (c : Crate) (e : Entity) : RootAgrees c (c.add e) :=
  ⟨rfl, rfl, rfl, rfl⟩

/-- Every entity the crate stores at identifier `j` has a non-Dataset kind. -/
def NotDatasetAt (c : Crate) (j : String) : Prop :=
  ∀ e, c.get j = some e → e.kind ≠ .dataset

theorem notDatasetAt_add {c : Crate} {j : String} (h : NotDatasetAt c j)
    (e : Entity) (he : e.kind ≠ .dataset) : NotDatasetAt (c.add e) j := by
  intro x hx
  by_cases hj : j = e.id
  · rw [hj, get_add_self] at hx
    cases hx
    exact he
  · rw [get_add_ne c e hj] at hx
    exact h x hx

theorem refreshFileProps_id (fs : FileSystem) (a : IOArgumentPath) (e : Entity) :
    (refreshFileProps fs a e).id = e.id := rfl

theorem add_file_ok {fs : FileSystem} {root : List String} {c : Crate}
    {a : IOArgumentPath} {c' : Crate} {ent : Entity}
    (h : add_file fs root c a = .ok (c', ent)) :
    root.isPrefixOf a.path = true ∧
    ent.id = fileIdent root a ∧
    ent.kind = .file ∧
    ent.description = a.help ∧
    ent.contentSize = some (fs.size a.path) ∧
    ent.encodingFormat = fs.mime a.path ∧
    c'.get (fileIdent root a) = some ent ∧
    (∀ j, j ≠ fileIdent root a → c'.get j = c.get j) ∧
    RootAgrees c c' ∧
    ((idsOf c.graph).Nodup → (idsOf c'.graph).Nodup) ∧
    (∀ j, NotDatasetAt c j → NotDatasetAt c' j) := by
  by_cases hp : root.isPrefixOf a.path
  case neg =>
    rw [add_file] at h
    simp [get_relative_path, hp, Bind.bind, Except.bind] at h
  case pos =>
  rw [add_file] at h
  simp only [get_relative_path, hp, if_true, Bind.bind, Except.bind, pure, Except.pure] at h
  refine ⟨hp, ?_⟩
  rw [← fileIdent] at h
  cases hg : c.get (fileIdent root a) with
  | none =>
    rw [hg] at h
    rw [Except.ok.injEq, Prod.mk.injEq] at h
    obtain ⟨hc, he⟩ := h
    subst hc; subst he
    refine ⟨rfl, rfl, rfl, rfl, rfl, ?_, ?_, rootAgrees_add _ _, ?_, ?_⟩
    · exact get_add_self c _
    · intro j hj; exact get_add_ne c _ hj
    · intro hnod
      exact nodup_idsOf_upsertEntity _ _ hnod
    · intro j hj
      exact notDatasetAt_add hj _ (by simp)
  | some existing =>
    rw [hg] at h
    by_cases hk : existing.kind = .file
    case neg =>
      simp only [hk, if_false] at h
      rw [Except.ok.injEq, Prod.mk.injEq] at h
      obtain ⟨hc, he⟩ := h
      subst hc; subst he
      refine ⟨rfl, rfl, rfl, rfl, rfl, ?_, ?_, rootAgrees_add _ _, ?_, ?_⟩
      · exact get_add_self c _
      · intro j hj; exact get_add_ne c _ hj
      · intro hnod
        exact nodup_idsOf_upsertEntity _ _ hnod
      · intro j hj
        exact notDatasetAt_add hj _ (by simp)
    case pos =>
      simp only [hk, if_true] at h
      rw [Except.ok.injEq, Prod.mk.injEq] at h
      obtain ⟨hc, he⟩ := h
      have hid : existing.id = fileIdent root a := eq_id_of_get_eq_some hg
      subst hc
      subst he
      refine ⟨by simp [refreshFileProps, hid], by simp [refreshFileProps, hk],
        rfl, rfl, rfl, ?_, ?_, ⟨rfl, rfl, rfl, rfl⟩, ?_, ?_⟩
      · show (updateById c.graph (fileIdent root a) _).find? _ = _
        rw [Crate.get] at hg
        rw [find?_updateById_self c.graph (fileIdent root a) _
          (refreshFileProps_id fs a), hg, Option.map_some']
      · intro j hj
        show (updateById c.graph (fileIdent root a) _).find? _ = _
        rw [find?_updateById_ne c.graph (fileIdent root a) _
          (refreshFileProps_id fs a) hj]
        rfl
      · intro hnod
        show (idsOf (updateById c.graph (fileIdent root a) _)).Nodup
        rw [idsOf_updateById c.graph (fileIdent root a) _ (refreshFileProps_id fs a)]
        exact hnod
      · intro j hj x hx
        rw [Crate.get] at hx
        dsimp only at hx
        by_cases hjf : j = fileIdent root a
        · subst hjf
          rw [Crate.get] at hg
          rw [find?_updateById_self c.graph (fileIdent root a) _
              (refreshFileProps_id fs a), hg, Option.map_some'] at hx
          cases hx
          simp [refreshFileProps, hk]
        · rw [find?_updateById_ne c.graph (fileIdent root a) _
              (refreshFileProps_id fs a) hjf] at hx
          exact hj x hx


/-- Characterization of a successful `add_files` fold. -/
theorem add_files_ok {fs : FileSystem} {root : List String} :
    ∀ {args : List IOArgumentPath} {c c' : Crate} {es : List Entity},
    add_files fs root c args = .ok (c', es) →
    (∀ a ∈ args, root.isPrefixOf a.path = true) ∧
    (∀ j, (∀ a ∈ args, j ≠ fileIdent root a) → c'.get j = c.get j) ∧
    RootAgrees c c' ∧
    ((idsOf c.graph).Nodup → (idsOf c'.graph).Nodup) ∧
    (∀ j, NotDatasetAt c j → NotDatasetAt c' j) := by
  intro args
  induction args with
  | nil =>
    intro c c' es h
    rw [add_files] at h
    rw [show (pure (c, ([] : List Entity)) : Except RecErr (Crate × List Entity)) =
      .ok (c, []) from rfl, Except.ok.injEq, Prod.mk.injEq] at h
    obtain ⟨hc, -⟩ := h
    subst hc
    exact ⟨by simp, fun j _ => rfl, rootAgrees_refl c, id, fun j hj => hj⟩
  | cons a rest ih =>
    intro c c' es h
    rw [add_files] at h
    cases hf : add_file fs root c a with
    | error e =>
      rw [hf] at h
      simp [Bind.bind, Except.bind] at h
    | ok p =>
      obtain ⟨c₁, e₁⟩ := p
      rw [hf] at h
      rw [show ((Except.ok (c₁, e₁) : Except RecErr (Crate × Entity)) >>= fun x =>
        match x with
        | (c₁, e) => do
          let (c₂, es) ← add_files fs root c₁ rest
          pure (c₂, e :: es)) = (do
          let (c₂, es) ← add_files fs root c₁ rest
          pure (c₂, e₁ :: es)) from rfl] at h
      cases hr : add_files fs root c₁ rest with
      | error e =>
        rw [hr] at h
        simp [Bind.bind, Except.bind] at h
      | ok q =>
        obtain ⟨c₂, es₂⟩ := q
        rw [hr] at h
        rw [show ((Except.ok (c₂, es₂) : Except RecErr (Crate × List Entity)) >>= fun x =>
          match x with
          | (c₂, es) => pure (c₂, e₁ :: es)) =
          (.ok (c₂, e₁ :: es₂) : Except RecErr (Crate × List Entity)) from rfl,
          Except.ok.injEq, Prod.mk.injEq] at h
        obtain ⟨hc, -⟩ := h
        subst hc
        obtain ⟨hp₁, hid₁, hk₁, hd₁, hcs₁, hef₁, hget₁, hfr₁, hra₁, hnd₁, hnds₁⟩ :=
          add_file_ok hf
        obtain ⟨hpr, hfrr, hrar, hndr, hndsr⟩ := ih hr
        refine ⟨?_, ?_, rootAgrees_trans hra₁ hrar, fun hn => hndr (hnd₁ hn), ?_⟩
        · intro b hb
          rcases List.mem_cons.mp hb with hb | hb
          · exact hb ▸ hp₁
          · exact hpr b hb
        · intro j hj
          rw [hfrr j (fun b hb => hj b (List.mem_cons_of_mem a hb)),
            hfr₁ j (hj a (List.mem_cons_self a rest))]
        · intro j hj
          exact hndsr j (hnds₁ j hj)

/-- The Dataset entity `add_dir` builds for an in-root path. -/
def dsEntity (root : List String) (a : IOArgumentPath) : Entity :=
  { id := dirIdent root a
    kind := .dataset
    name := fileIdent root a }

/-- A dataset entity is stored at identifier `j` (with `j` itself as id). -/
def DatasetStoredAt (c : Crate) (j : String) : Prop :=
  ∃ e, c.get j = some e ∧ e.kind = .dataset ∧ e.id = j

theorem notDatasetAt_add_ne {c : Crate} {j : String} (h : NotDatasetAt c j)
    (e : Entity) (he : j ≠ e.id) : NotDatasetAt (c.add e) j := by
  intro x hx
  rw [get_add_ne c e he] at hx
  exact h x hx

/-- Characterization of a successful `add_dir`. -/
theorem add_dir_ok {root : List String} {c : Crate} {a : IOArgumentPath}
    {c' : Crate} {ent : Entity} (h : add_dir root c a = .ok (c', ent)) :
    root.isPrefixOf a.path = true ∧
    (∀ j, j ≠ dirIdent root a → c'.get j = c.get j) ∧
    RootAgrees c c' ∧
    ((idsOf c.graph).Nodup → (idsOf c'.graph).Nodup) ∧
    (∀ j, j ≠ dirIdent root a → NotDatasetAt c j → NotDatasetAt c' j) ∧
    (NotDatasetAt c (fileIdent root a) →
      c'.get (dirIdent root a) = some (dsEntity root a)) ∧
    (∀ d, DatasetStoredAt c d → DatasetStoredAt c' d) := by
  by_cases hp : root.isPrefixOf a.path
  case neg =>
    rw [add_dir] at h
    simp [get_relative_path, hp, Bind.bind, Except.bind] at h
  case pos =>
  rw [add_dir] at h
  simp only [get_relative_path, hp, if_true, Bind.bind, Except.bind, pure, Except.pure] at h
  refine ⟨hp, ?_⟩
  rw [← fileIdent] at h
  have hadd : ∀ (hh : c.add (dsEntity root a) = c'),
      (∀ j, j ≠ dirIdent root a → c'.get j = c.get j) ∧
      RootAgrees c c' ∧
      ((idsOf c.graph).Nodup → (idsOf c'.graph).Nodup) ∧
      (∀ j, j ≠ dirIdent root a → NotDatasetAt c j → NotDatasetAt c' j) ∧
      (NotDatasetAt c (fileIdent root a) →
        c'.get (dirIdent root a) = some (dsEntity root a)) ∧
      (∀ d, DatasetStoredAt c d → DatasetStoredAt c' d) := by
    intro hh
    subst hh
    refine ⟨?_, rootAgrees_add _ _, ?_, ?_, ?_, ?_⟩
    · intro j hj
      exact get_add_ne c _ hj
    · intro hnod
      exact nodup_idsOf_upsertEntity _ _ hnod
    · intro j hj hnd
      exact notDatasetAt_add_ne hnd _ hj
    · intro _
      exact get_add_self c _
    · intro d hd
      by_cases hdd : d = dirIdent root a
      · subst hdd
        exact ⟨dsEntity root a, get_add_self c _, rfl, rfl⟩
      · obtain ⟨e, he, hke, hie⟩ := hd
        exact ⟨e, by rw [get_add_ne c _ hdd]; exact he, hke, hie⟩
  cases hg : c.get (fileIdent root a) with
  | none =>
    rw [hg] at h
    rw [Except.ok.injEq, Prod.mk.injEq] at h
    exact hadd h.1
  | some existing =>
    rw [hg] at h
    by_cases hk : existing.kind = .dataset
    case pos =>
      simp only [hk, if_true] at h
      rw [Except.ok.injEq, Prod.mk.injEq] at h
      obtain ⟨hc, -⟩ := h
      subst hc
      refine ⟨fun j _ => rfl, rootAgrees_refl c, id, fun j _ hj => hj, ?_, fun d hd => hd⟩
      · intro hnd
        exact absurd hk (hnd existing hg)
    case neg =>
      simp only [hk, if_false] at h
      rw [Except.ok.injEq, Prod.mk.injEq] at h
      exact hadd h.1

/-- Characterization of a successful `add_dirs` fold. -/
theorem add_dirs_ok {root : List String} :
    ∀ {args : List IOArgumentPath} {c c' : Crate} {es : List Entity},
    add_dirs root c args = .ok (c', es) →
    (∀ a ∈ args, root.isPrefixOf a.path = true) ∧
    (∀ j, (∀ a ∈ args, j ≠ dirIdent root a) → c'.get j = c.get j) ∧
    RootAgrees c c' ∧
    ((idsOf c.graph).Nodup → (idsOf c'.graph).Nodup) ∧
    (∀ j, (∀ a ∈ args, j ≠ dirIdent root a) → NotDatasetAt c j → NotDatasetAt c' j) ∧
    (∀ d, DatasetStoredAt c d → DatasetStoredAt c' d) ∧
    (∀ a ∈ args, NotDatasetAt c (fileIdent root a) →
      (∀ b ∈ args, fileIdent root a ≠ dirIdent root b) →
      DatasetStoredAt c' (dirIdent root a)) := by
  intro args
  induction args with
  | nil =>
    intro c c' es h
    rw [add_dirs] at h
    rw [show (pure (c, ([] : List Entity)) : Except RecErr (Crate × List Entity)) =
      .ok (c, []) from rfl, Except.ok.injEq, Prod.mk.injEq] at h
    obtain ⟨hc, -⟩ := h
    subst hc
    exact ⟨by simp, fun j _ => rfl, rootAgrees_refl c, id, fun j _ hj => hj,
      fun d hd => hd, by simp⟩
  | cons a rest ih =>
    intro c c' es h
    rw [add_dirs] at h
    cases hf : add_dir root c a with
    | error e =>
      rw [hf] at h
      simp [Bind.bind, Except.bind] at h
    | ok p =>
      obtain ⟨c₁, e₁⟩ := p
      rw [hf] at h
      rw [show ((Except.ok (c₁, e₁) : Except RecErr (Crate × Entity)) >>= fun x =>
        match x with
        | (c₁, e) => do
          let (c₂, es) ← add_dirs root c₁ rest
          pure (c₂, e :: es)) = (do
          let (c₂, es) ← add_dirs root c₁ rest
          pure (c₂, e₁ :: es)) from rfl] at h
      cases hr : add_dirs root c₁ rest with
      | error e =>
        rw [hr] at h
        simp [Bind.bind, Except.bind] at h
      | ok q =>
        obtain ⟨c₂, es₂⟩ := q
        rw [hr] at h
        rw [show ((Except.ok (c₂, es₂) : Except RecErr (Crate × List Entity)) >>= fun x =>
          match x with
          | (c₂, es) => pure (c₂, e₁ :: es)) =
          (.ok (c₂, e₁ :: es₂) : Except RecErr (Crate × List Entity)) from rfl,
          Except.ok.injEq, Prod.mk.injEq] at h
        obtain ⟨hc, -⟩ := h
        subst hc
        obtain ⟨hp₁, hfr₁, hra₁, hnd₁, hnds₁, hds₁, hpres₁⟩ := add_dir_ok hf
        obtain ⟨hpr, hfrr, hrar, hndr, hndsr, hpresr, hmemr⟩ := ih hr
        refine ⟨?_, ?_, rootAgrees_trans hra₁ hrar, fun hn => hndr (hnd₁ hn), ?_, ?_, ?_⟩
        · intro b hb
          rcases List.mem_cons.mp hb with hb | hb
          · exact hb ▸ hp₁
          · exact hpr b hb
        · intro j hj
          rw [hfrr j (fun b hb => hj b (List.mem_cons_of_mem a hb)),
            hfr₁ j (hj a (List.mem_cons_self a rest))]
        · intro j hj hnd
          exact hndsr j (fun b hb => hj b (List.mem_cons_of_mem a hb))
            (hnds₁ j (hj a (List.mem_cons_self a rest)) hnd)
        · intro d hd
          exact hpresr d (hpres₁ d hd)
        · intro b hb hndb hnob
          rcases List.mem_cons.mp hb with hb | hb
          · subst hb
            exact hpresr _ (⟨dsEntity root b, hds₁ hndb, rfl, rfl⟩)
          · refine hmemr b hb ?_ (fun x hx => hnob x (List.mem_cons_of_mem a hx))
            exact hnds₁ _ (hnob a (List.mem_cons_self a rest)) hndb

/-- The profile step only touches the graph via the optional profile add. -/
theorem conform_graph (c : Crate) :
    (conform_to_process_run_crate_profile c).graph =
      if (c.get processRunCrateId).isNone then (c.add prcEntity).graph
      else c.graph := by
  rw [conform_to_process_run_crate_profile]
  by_cases h1 : (c.get prcEntity.id).isNone
  · rw [if_pos h1, if_pos (show (c.get processRunCrateId).isNone from h1)]
    split <;> (try split) <;> rfl
  · rw [if_neg h1, if_neg (show ¬(c.get processRunCrateId).isNone from h1)]
    split <;> (try split) <;> rfl

/-- The profile step leaves the four root summary text fields alone. -/
theorem conform_rootAgrees (c : Crate) :
    RootAgrees c (conform_to_process_run_crate_profile c) := by
  rw [conform_to_process_run_crate_profile]
  refine ⟨?_, ?_, ?_, ?_⟩ <;>
    (split <;> (try split) <;> (try split) <;> rfl)

/-- Characterization of `conform_to_process_run_crate_profile`. -/
theorem conform_profile_ok (c : Crate) :
    (∀ j e, c.get j = some e →
      (conform_to_process_run_crate_profile c).get j = some e) ∧
    (∀ j, j ≠ processRunCrateId →
      (conform_to_process_run_crate_profile c).get j = c.get j) ∧
    RootAgrees c (conform_to_process_run_crate_profile c) ∧
    ((idsOf c.graph).Nodup →
      (idsOf (conform_to_process_run_crate_profile c).graph).Nodup) ∧
    (∀ j, NotDatasetAt c j →
      NotDatasetAt (conform_to_process_run_crate_profile c) j) := by
  have hg := conform_graph c
  by_cases h1 : (c.get processRunCrateId).isNone
  · rw [if_pos h1] at hg
    refine ⟨?_, ?_, conform_rootAgrees c, ?_, ?_⟩
    · intro j e hj
      have hne : j ≠ processRunCrateId := by
        intro hh
        rw [hh] at hj
        rw [hj] at h1
        simp at h1
      rw [Crate.get, hg]
      rw [show (c.add prcEntity).graph.find? (fun e => e.id == j) =
        (c.add prcEntity).get j from rfl, get_add_ne c prcEntity hne]
      exact hj
    · intro j hj
      rw [Crate.get, hg]
      rw [show (c.add prcEntity).graph.find? (fun e => e.id == j) =
        (c.add prcEntity).get j from rfl, get_add_ne c prcEntity hj]
    · intro hnod
      rw [idsOf, hg, ← idsOf]
      exact nodup_idsOf_upsertEntity _ _ hnod
    · intro j hj x hx
      rw [Crate.get, hg] at hx
      rw [show (c.add prcEntity).graph.find? (fun e => e.id == j) =
        (c.add prcEntity).get j from rfl] at hx
      exact notDatasetAt_add hj prcEntity (by simp [prcEntity]) x hx
  · rw [if_neg h1] at hg
    have hget : ∀ j, (conform_to_process_run_crate_profile c).get j = c.get j := by
      intro j
      rw [Crate.get, hg]
      rfl
    refine ⟨?_, ?_, conform_rootAgrees c, ?_, ?_⟩
    · intro j e hj
      rw [hget]
      exact hj
    · intro j _
      exact hget j
    · intro hnod
      rw [idsOf, hg, ← idsOf]
      exact hnod
    · intro j hj x hx
      rw [hget] at hx
      exact hj x hx

/-- Characterization of `add_software_application`. -/
theorem add_software_application_ok {c : Crate} {program : Program} {v : String}
    {c' : Crate} {app : Entity}
    (h : add_software_application c program v = (c', app)) :
    app = build_software_application program v ∧
    (∀ j, j ≠ softwareId program.name v → c'.get j = c.get j) ∧
    RootAgrees c c' ∧
    ((idsOf c.graph).Nodup → (idsOf c'.graph).Nodup) ∧
    (∀ j, NotDatasetAt c j → NotDatasetAt c' j) ∧
    ((∀ e, c.get (softwareId program.name v) = some e →
        e.kind = .softwareApplication) →
      ∃ e, c'.get (softwareId program.name v) = some e ∧
        e.kind = .softwareApplication ∧ e.version = some v) := by
  rw [add_software_application] at h
  have happid : (build_software_application program v).id =
    softwareId program.name v := rfl
  cases hg : c.get (build_software_application program v).id with
  | some e =>
    rw [hg] at h
    by_cases hv : e.version == some v
    · rw [if_pos (by simp [hv])] at h
      rw [Prod.mk.injEq] at h
      obtain ⟨hc, ha⟩ := h
      subst hc; subst ha
      refine ⟨rfl, fun j _ => rfl, rootAgrees_refl c, id, fun j hj => hj, ?_⟩
      intro hk
      rw [happid] at hg
      exact ⟨e, hg, hk e hg, by simpa using hv⟩
    · rw [if_neg (by simpa using hv)] at h
      rw [Prod.mk.injEq] at h
      obtain ⟨hc, ha⟩ := h
      subst hc; subst ha
      refine ⟨rfl, ?_, rootAgrees_add _ _, ?_, ?_, ?_⟩
      · intro j hj
        exact get_add_ne c _ (by rw [happid]; exact hj)
      · intro hnod
        exact nodup_idsOf_upsertEntity _ _ hnod
      · intro j hj
        exact notDatasetAt_add hj _ (by simp [build_software_application])
      · intro _
        refine ⟨build_software_application program v, ?_, rfl, rfl⟩
        rw [← happid]
        exact get_add_self c _
  | none =>
    rw [hg] at h
    rw [if_neg (by simp)] at h
    rw [Prod.mk.injEq] at h
    obtain ⟨hc, ha⟩ := h
    subst hc; subst ha
    refine ⟨rfl, ?_, rootAgrees_add _ _, ?_, ?_, ?_⟩
    · intro j hj
      exact get_add_ne c _ (by rw [happid]; exact hj)
    · intro hnod
      exact nodup_idsOf_upsertEntity _ _ hnod
    · intro j hj
      exact notDatasetAt_add hj _ (by simp [build_software_application])
    · intro _
      refine ⟨build_software_application program v, ?_, rfl, rfl⟩
      rw [← happid]
      exact get_add_self c _

/-- Characterization of `add_agent`. -/
theorem add_agent_ok {c : Crate} {u : String} {c' : Crate} {person : Entity}
    (h : add_agent c u = (c', person)) :
    (∀ j e, c.get j = some e → c'.get j = some e) ∧
    (∀ j, j ≠ u → c'.get j = c.get j) ∧
    RootAgrees c c' ∧
    ((idsOf c.graph).Nodup → (idsOf c'.graph).Nodup) ∧
    (∀ j, NotDatasetAt c j → NotDatasetAt c' j) := by
  rw [add_agent] at h
  cases hg : c.get u with
  | some e =>
    rw [hg] at h
    rw [Prod.mk.injEq] at h
    obtain ⟨hc, -⟩ := h
    subst hc
    exact ⟨fun j e hj => hj, fun j _ => rfl, rootAgrees_refl c, id, fun j hj => hj⟩
  | none =>
    rw [hg] at h
    rw [Prod.mk.injEq] at h
    obtain ⟨hc, -⟩ := h
    subst hc
    refine ⟨?_, ?_, rootAgrees_add _ _, ?_, ?_⟩
    · intro j e hj
      have hne : j ≠ u := by
        intro hh
        rw [hh, hg] at hj
        cases hj
      rw [get_add_ne c _ hne]
      exact hj
    · intro j hj
      exact get_add_ne c _ hj
    · intro hnod
      exact nodup_idsOf_upsertEntity _ _ hnod
    · intro j hj
      exact notDatasetAt_add hj _ (by simp)

/-- When an entity with the action identifier exists, `add_action` is a no-op. -/
theorem add_action_eq_of_get_some {c : Crate} {aid : String} {e : Entity}
    (hg : c.get aid = some e) (st et : String) (software : Entity)
    (ins outs : List Entity) (agent : Entity) :
    add_action c aid st et software ins outs agent = c := by
  rw [add_action, hg]

/-- When the action identifier is fresh, `add_action` inserts the
CreateAction entity. -/
theorem add_action_eq_of_get_none {c : Crate} {aid : String}
    (hg : c.get aid = none) (st et : String) (software : Entity)
    (ins outs : List Entity) (agent : Entity) :
    add_action c aid st et software ins outs agent = c.add
      { id := aid
        kind := .createAction
        name := aid
        startTime := st
        endTime := et
        agent := agent.id
        instrument := software.id
        object := ins.map (fun e => e.id)
        result := outs.map (fun e => e.id) } := by
  rw [add_action, hg]

/-- Characterization of `add_action`. -/
theorem add_action_ok (c : Crate) (aid st et : String) (software : Entity)
    (ins outs : List Entity) (agent : Entity) :
    (∀ j e, c.get j = some e →
      (add_action c aid st et software ins outs agent).get j = some e) ∧
    (∀ j, j ≠ aid → (add_action c aid st et software ins outs agent).get j = c.get j) ∧
    RootAgrees c (add_action c aid st et software ins outs agent) ∧
    ((idsOf c.graph).Nodup →
      (idsOf (add_action c aid st et software ins outs agent).graph).Nodup) ∧
    (∀ j, NotDatasetAt c j →
      NotDatasetAt (add_action c aid st et software ins outs agent) j) ∧
    (c.get aid = none →
      (add_action c aid st et software ins outs agent).get aid = some
        { id := aid
          kind := .createAction
          name := aid
          startTime := st
          endTime := et
          agent := agent.id
          instrument := software.id
          object := ins.map (fun e => e.id)
          result := outs.map (fun e => e.id) }) := by
  cases hg : c.get aid with
  | some e =>
    rw [add_action_eq_of_get_some hg]
    exact ⟨fun j e hj => hj, fun j _ => rfl, rootAgrees_refl c, id, fun j hj => hj,
      by intro hh; exact Option.noConfusion hh⟩
  | none =>
    rw [add_action_eq_of_get_none hg]
    refine ⟨?_, ?_, rootAgrees_add _ _, ?_, ?_, ?_⟩
    · intro j e hj
      have hne : j ≠ aid := by
        intro hh
        rw [hh, hg] at hj
        cases hj
      rw [get_add_ne c _ hne]
      exact hj
    · intro j hj
      exact get_add_ne c _ hj
    · intro hnod
      exact nodup_idsOf_upsertEntity _ _ hnod
    · intro j hj
      exact notDatasetAt_add hj _ (by simp)
    · intro _
      exact get_add_self c _

/-! ## `_unique_by_id` -/

theorem uniqueById_go_id_not_seen :
    ∀ {seen : List String} {l : List Entity} {e : Entity},
      e ∈ _unique_by_id.go seen l → e.id ∉ seen := by
  intro seen l
  induction l generalizing seen with
  | nil => intro e he; cases he
  | cons x xs ih =>
    intro e he
    rw [_unique_by_id.go] at he
    by_cases hx : seen.contains x.id
    · rw [if_pos hx] at he
      exact ih he
    · rw [if_neg hx] at he
      rcases List.mem_cons.mp he with he | he
      · subst he
        simpa using hx
      · have := ih he
        intro hc
        exact this (List.mem_cons_of_mem _ hc)

theorem uniqueById_go_ids_nodup :
    ∀ (seen : List String) (l : List Entity),
      ((_unique_by_id.go seen l).map (fun e => e.id)).Nodup := by
  intro seen l
  induction l generalizing seen with
  | nil => simp [_unique_by_id.go]
  | cons x xs ih =>
    rw [_unique_by_id.go]
    by_cases hx : seen.contains x.id
    · rw [if_pos hx]
      exact ih seen
    · rw [if_neg hx]
      rw [List.map_cons, List.nodup_cons]
      refine ⟨?_, ih (x.id :: seen)⟩
      intro hc
      obtain ⟨e, he, hee⟩ := List.mem_map.mp hc
      have := uniqueById_go_id_not_seen he
      exact this (by rw [hee]; exact List.mem_cons_self _ _)

theorem uniqueById_go_sublist :
    ∀ (seen : List String) (l : List Entity), List.Sublist (_unique_by_id.go seen l) l := by
  intro seen l
  induction l generalizing seen with
  | nil => simp [_unique_by_id.go]
  | cons x xs ih =>
    rw [_unique_by_id.go]
    by_cases hx : seen.contains x.id
    · rw [if_pos hx]
      exact (ih seen).cons x
    · rw [if_neg hx]
      exact (ih (x.id :: seen)).cons₂ x

/-- The deduplicated list has pairwise distinct identifiers. -/
theorem uniqueById_ids_nodup (l : List Entity) :
    ((_unique_by_id l).map (fun e => e.id)).Nodup :=
  uniqueById_go_ids_nodup [] l

/-- The deduplicated list is a sublist (first-seen order preserved). -/
theorem uniqueById_sublist (l : List Entity) : List.Sublist (_unique_by_id l) l :=
  uniqueById_go_sublist [] l

/-! ## `rootFinalize` and the `_update_crate` orchestration -/

theorem rootFinalize_graph (c : Crate) (program : Program) (et : String)
    (lic : Option String) : (rootFinalize c program et lic).graph = c.graph := by
  rw [rootFinalize.eq_def]
  cases lic <;> dsimp only <;> (split <;> (try split) <;> (try split) <;> rfl)

theorem rootFinalize_get (c : Crate) (program : Program) (et : String)
    (lic : Option String) (j : String) :
    (rootFinalize c program et lic).get j = c.get j := by
  rw [Crate.get, Crate.get, rootFinalize_graph]

theorem rootFinalize_rootLicense (c : Crate) (program : Program) (et : String)
    (lic : Option String) :
    (rootFinalize c program et lic).rootLicense =
      match lic with
      | some l => if l ≠ "" then l else c.rootLicense
      | none => c.rootLicense := by
  rw [rootFinalize.eq_def]
  cases lic <;> dsimp only <;> (split <;> (try split) <;> (try split) <;> rfl)

theorem rootFinalize_datePublished (c : Crate) (program : Program) (et : String)
    (lic : Option String) : (rootFinalize c program et lic).datePublished = et := by
  rw [rootFinalize.eq_def]
  cases lic <;> dsimp only <;> (split <;> (try split) <;> (try split) <;> rfl)

theorem rootFinalize_rootName (c : Crate) (program : Program) (et : String)
    (lic : Option String) :
    (rootFinalize c program et lic).rootName =
      if c.rootName = "" then "Files used by " ++ program.name
      else c.rootName := by
  rw [rootFinalize.eq_def]
  cases lic <;> dsimp only <;>
    (split <;> (try split) <;> (try split)) <;> simp_all

theorem rootFinalize_rootDescription (c : Crate) (program : Program) (et : String)
    (lic : Option String) :
    (rootFinalize c program et lic).rootDescription =
      if c.rootDescription = "" then
        "An RO-Crate recording the files and directories that were used as input or output by "
          ++ program.name ++ "."
      else c.rootDescription := by
  rw [rootFinalize.eq_def]
  cases lic <;> dsimp only <;>
    (split <;> (try split) <;> (try split)) <;> simp_all

/-- A successful `_update_crate` decomposes into its successive phases. -/
theorem update_crate_ok_elim {fs : FileSystem} {c : Crate} {root : List String}
    {program : Program} {v : String} {ioargs : IOArgumentPaths}
    {aid st et user : String} {lic : Option String} {c' : Crate}
    (h : _update_crate fs c root program v ioargs aid st et user lic = .ok c') :
    ∃ c₁ software c₂ in_files c₃ in_dirs c₄ out_files c₅ out_dirs c₆ agent,
      add_software_application (conform_to_process_run_crate_profile c) program v
        = (c₁, software) ∧
      add_files fs root c₁ ioargs.input_files = .ok (c₂, in_files) ∧
      add_dirs root c₂ ioargs.input_dirs = .ok (c₃, in_dirs) ∧
      add_files fs root c₃ ioargs.output_files = .ok (c₄, out_files) ∧
      add_dirs root c₄ ioargs.output_dirs = .ok (c₅, out_dirs) ∧
      add_agent c₅ user = (c₆, agent) ∧
      c' = rootFinalize
        (add_action c₆ aid st et software (_unique_by_id (in_files ++ in_dirs))
          (_unique_by_id (out_files ++ out_dirs)) agent) program et lic := by
  rw [_update_crate] at h
  cases hsw : add_software_application (conform_to_process_run_crate_profile c)
      program v with
  | mk c₁ software =>
  rw [hsw] at h
  dsimp only at h
  cases h₂ : add_files fs root c₁ ioargs.input_files with
  | error e =>
    rw [h₂] at h
    simp [Bind.bind, Except.bind] at h
  | ok p₂ =>
  obtain ⟨c₂, in_files⟩ := p₂
  rw [h₂] at h
  simp only [Bind.bind, Except.bind] at h
  cases h₃ : add_dirs root c₂ ioargs.input_dirs with
  | error e =>
    rw [h₃] at h
    simp at h
  | ok p₃ =>
  obtain ⟨c₃, in_dirs⟩ := p₃
  rw [h₃] at h
  simp only at h
  cases h₄ : add_files fs root c₃ ioargs.output_files with
  | error e =>
    rw [h₄] at h
    simp at h
  | ok p₄ =>
  obtain ⟨c₄, out_files⟩ := p₄
  rw [h₄] at h
  simp only at h
  cases h₅ : add_dirs root c₄ ioargs.output_dirs with
  | error e =>
    rw [h₅] at h
    simp at h
  | ok p₅ =>
  obtain ⟨c₅, out_dirs⟩ := p₅
  rw [h₅] at h
  simp only at h
  cases hag : add_agent c₅ user with
  | mk c₆ agent =>
  rw [hag] at h
  dsimp only at h
  rw [show (pure (rootFinalize
      (add_action c₆ aid st et software (_unique_by_id (in_files ++ in_dirs))
        (_unique_by_id (out_files ++ out_dirs)) agent) program et lic) :
      Except RecErr Crate) = .ok (rootFinalize
      (add_action c₆ aid st et software (_unique_by_id (in_files ++ in_dirs))
        (_unique_by_id (out_files ++ out_dirs)) agent) program et lic) from rfl,
    Except.ok.injEq] at h
  exact ⟨c₁, software, c₂, in_files, c₃, in_dirs, c₄, out_files, c₅, out_dirs,
    c₆, agent, rfl, h₂, h₃, h₄, h₅, hag, h.symm⟩

/-- The file identifiers a call may create or refresh. -/
def fileIdents (root : List String) (ioargs : IOArgumentPaths) : List String :=
  (ioargs.input_files ++ ioargs.output_files).map (fileIdent root)

/-- The directory identifiers a call may create. -/
def dirIdents (root : List String) (ioargs : IOArgumentPaths) : List String :=
  (ioargs.input_dirs ++ ioargs.output_dirs).map (dirIdent root)

/-- Identifiers at which a call may replace or rewrite an existing entity. -/
def replacedIds (root : List String) (program : Program) (v : String)
    (ioargs : IOArgumentPaths) : List String :=
  softwareId program.name v :: (fileIdents root ioargs ++ dirIdents root ioargs)

/-- Identifiers at which a call may write any entity at all. -/
def touchedIds (root : List String) (program : Program) (v : String)
    (ioargs : IOArgumentPaths) (user : String) : List String :=
  processRunCrateId :: user :: replacedIds root program v ioargs

/-- `add_agent` always hands back the fresh Person value. -/
theorem add_agent_snd {c : Crate} {u : String} {c' : Crate} {p : Entity}
    (h : add_agent c u = (c', p)) :
    p = { id := u, kind := .person, name := u } := by
  rw [add_agent] at h
  cases hg : c.get u <;> rw [hg] at h <;>
    (rw [Prod.mk.injEq] at h; exact h.2.symm)

/-- Elimination for `add_files` over a cons cell. -/
theorem add_files_cons_elim {fs : FileSystem} {root : List String} {c : Crate}
    {x : IOArgumentPath} {xs : List IOArgumentPath} {c' : Crate} {es : List Entity}
    (h : add_files fs root c (x :: xs) = .ok (c', es)) :
    ∃ c₁ e₁ es₁, add_file fs root c x = .ok (c₁, e₁) ∧
      add_files fs root c₁ xs = .ok (c', es₁) ∧ es = e₁ :: es₁ := by
  rw [add_files] at h
  cases hf : add_file fs root c x with
  | error e =>
    rw [hf] at h
    simp [Bind.bind, Except.bind] at h
  | ok p =>
    obtain ⟨c₁, e₁⟩ := p
    rw [hf] at h
    simp only [Bind.bind, Except.bind] at h
    cases hr : add_files fs root c₁ xs with
    | error e =>
      rw [hr] at h
      simp at h
    | ok q =>
      obtain ⟨c₂, es₂⟩ := q
      rw [hr] at h
      simp only at h
      rw [show (pure (c₂, e₁ :: es₂) : Except RecErr (Crate × List Entity)) =
        .ok (c₂, e₁ :: es₂) from rfl, Except.ok.injEq, Prod.mk.injEq] at h
      obtain ⟨hc, hes⟩ := h
      subst hc
      exact ⟨c₁, e₁, es₂, rfl, hr, hes.symm⟩

/-- After `add_files` over a list whose last occurrence of a given file
identifier is the argument `a`, the crate holds a File entity with `a`'s
freshly read properties at that identifier. -/
theorem add_files_ok_last {fs : FileSystem} {root : List String} :
    ∀ (l₁ : List IOArgumentPath) {a : IOArgumentPath} {l₂ : List IOArgumentPath}
      {c c' : Crate} {es : List Entity},
    add_files fs root c (l₁ ++ a :: l₂) = .ok (c', es) →
    (∀ b ∈ l₂, fileIdent root b ≠ fileIdent root a) →
    ∃ e, c'.get (fileIdent root a) = some e ∧ e.kind = .file ∧
      e.description = a.help ∧ e.contentSize = some (fs.size a.path) ∧
      e.encodingFormat = fs.mime a.path := by
  intro l₁
  induction l₁ with
  | nil =>
    intro a l₂ c c' es h hlast
    rw [List.nil_append] at h
    obtain ⟨c₁, e₁, es₁, hf, hr, -⟩ := add_files_cons_elim h
    obtain ⟨-, hid₁, hk₁, hd₁, hcs₁, hef₁, hget₁, -, -, -, -⟩ := add_file_ok hf
    obtain ⟨-, hfrr, -, -, -⟩ := add_files_ok hr
    refine ⟨e₁, ?_, hk₁, hd₁, hcs₁, hef₁⟩
    rw [hfrr _ (fun b hb => (hlast b hb).symm), hget₁]
  | cons x l₁' ih =>
    intro a l₂ c c' es h hlast
    rw [List.cons_append] at h
    obtain ⟨c₁, e₁, es₁, hf, hr, -⟩ := add_files_cons_elim h
    exact ih hr hlast

/-- A successful `_update_crate` saw every supplied path inside the root. -/
theorem update_crate_ok_paths {fs : FileSystem} {c : Crate} {root : List String}
    {program : Program} {v : String} {ioargs : IOArgumentPaths}
    {aid st et user : String} {lic : Option String} {c' : Crate}
    (h : _update_crate fs c root program v ioargs aid st et user lic = .ok c') :
    ∀ a ∈ ioargs.input_files ++ ioargs.input_dirs ++
        ioargs.output_files ++ ioargs.output_dirs,
      root.isPrefixOf a.path = true := by
  obtain ⟨c₁, software, c₂, in_files, c₃, in_dirs, c₄, out_files, c₅, out_dirs,
    c₆, agent, hsw, h₂, h₃, h₄, h₅, hag, hfin⟩ := update_crate_ok_elim h
  intro a ha
  rcases List.mem_append.mp ha with ha | ha
  · rcases List.mem_append.mp ha with ha | ha
    · rcases List.mem_append.mp ha with ha | ha
      · exact (add_files_ok h₂).1 a ha
      · exact (add_dirs_ok h₃).1 a ha
    · exact (add_files_ok h₄).1 a ha
  · exact (add_dirs_ok h₅).1 a ha

/-- The root summary fields after a successful `_update_crate`. -/
theorem update_crate_ok_root {fs : FileSystem} {c : Crate} {root : List String}
    {program : Program} {v : String} {ioargs : IOArgumentPaths}
    {aid st et user : String} {lic : Option String} {c' : Crate}
    (h : _update_crate fs c root program v ioargs aid st et user lic = .ok c') :
    ((lic = none ∨ lic = some "") → c'.rootLicense = c.rootLicense) ∧
    (∀ l, lic = some l → l ≠ "" → c'.rootLicense = l) ∧
    c'.datePublished = et ∧
    c'.rootName =
      (if c.rootName = "" then "Files used by " ++ program.name
        else c.rootName) ∧
    c'.rootDescription =
      (if c.rootDescription = "" then
        "An RO-Crate recording the files and directories that were used as input or output by "
          ++ program.name ++ "."
      else c.rootDescription) := by
  obtain ⟨c₁, software, c₂, in_files, c₃, in_dirs, c₄, out_files, c₅, out_dirs,
    c₆, agent, hsw, h₂, h₃, h₄, h₅, hag, hfin⟩ := update_crate_ok_elim h
  have hra : RootAgrees c (add_action c₆ aid st et software
      (_unique_by_id (in_files ++ in_dirs))
      (_unique_by_id (out_files ++ out_dirs)) agent) := by
    refine rootAgrees_trans ?_ (add_action_ok c₆ aid st et software _ _ agent).2.2.1
    refine rootAgrees_trans ?_ (add_agent_ok hag).2.2.1
    refine rootAgrees_trans ?_ (add_dirs_ok h₅).2.2.1
    refine rootAgrees_trans ?_ (add_files_ok h₄).2.2.1
    refine rootAgrees_trans ?_ (add_dirs_ok h₃).2.2.1
    refine rootAgrees_trans ?_ (add_files_ok h₂).2.2.1
    refine rootAgrees_trans (conform_profile_ok c).2.2.1
      (add_software_application_ok hsw).2.2.1
  obtain ⟨hrn, hrd, hrl, hdp⟩ := hra
  subst hfin
  refine ⟨?_, ?_, rootFinalize_datePublished _ _ _ _, ?_, ?_⟩
  · intro hl
    rcases hl with hl | hl <;>
      (subst hl; rw [rootFinalize_rootLicense, hrl]) <;> (try simp)
  · intro l hl hlne
    subst hl
    rw [rootFinalize_rootLicense, hrl]
    simp [hlne]
  · rw [rootFinalize_rootName, hrn]
  · rw [rootFinalize_rootDescription, hrd]

/-- `_update_crate` keeps identifiers duplicate-free. -/
theorem update_crate_ok_nodup {fs : FileSystem} {c : Crate} {root : List String}
    {program : Program} {v : String} {ioargs : IOArgumentPaths}
    {aid st et user : String} {lic : Option String} {c' : Crate}
    (h : _update_crate fs c root program v ioargs aid st et user lic = .ok c')
    (hn : (idsOf c.graph).Nodup) : (idsOf c'.graph).Nodup := by
  obtain ⟨c₁, software, c₂, in_files, c₃, in_dirs, c₄, out_files, c₅, out_dirs,
    c₆, agent, hsw, h₂, h₃, h₄, h₅, hag, hfin⟩ := update_crate_ok_elim h
  subst hfin
  rw [idsOf, rootFinalize_graph, ← idsOf]
  refine (add_action_ok c₆ aid st et software _ _ agent).2.2.2.1 ?_
  refine (add_agent_ok hag).2.2.2.1 ?_
  refine (add_dirs_ok h₅).2.2.2.1 ?_
  refine (add_files_ok h₄).2.2.2.1 ?_
  refine (add_dirs_ok h₃).2.2.2.1 ?_
  refine (add_files_ok h₂).2.2.2.1 ?_
  exact (add_software_application_ok hsw).2.2.2.1 ((conform_profile_ok c).2.2.2.1 hn)

/-- Outside the identifiers a call replaces, an existing entity survives a
successful `_update_crate` unchanged. -/
theorem update_crate_ok_preserve_some {fs : FileSystem} {c : Crate}
    {root : List String} {program : Program} {v : String}
    {ioargs : IOArgumentPaths} {aid st et user : String} {lic : Option String}
    {c' : Crate}
    (h : _update_crate fs c root program v ioargs aid st et user lic = .ok c')
    {j : String} (hj : j ∉ replacedIds root program v ioargs) :
    ∀ e, c.get j = some e → c'.get j = some e := by
  obtain ⟨c₁, software, c₂, in_files, c₃, in_dirs, c₄, out_files, c₅, out_dirs,
    c₆, agent, hsw, h₂, h₃, h₄, h₅, hag, hfin⟩ := update_crate_ok_elim h
  rw [replacedIds, List.mem_cons, not_or] at hj
  obtain ⟨hjs, hjrest⟩ := hj
  rw [List.mem_append, not_or, fileIdents, dirIdents, List.map_append,
    List.map_append, List.mem_append, List.mem_append, not_or, not_or] at hjrest
  obtain ⟨⟨hjfi, hjfo⟩, hjdi, hjdo⟩ := hjrest
  intro e he
  have s₀ := (conform_profile_ok c).1 j e he
  have s₁ : c₁.get j = some e := by
    rw [(add_software_application_ok hsw).2.1 j hjs]
    exact s₀
  have s₂ : c₂.get j = some e := by
    rw [(add_files_ok h₂).2.1 j (fun a ha => by
      intro hh
      exact hjfi (hh ▸ List.mem_map_of_mem _ ha))]
    exact s₁
  have s₃ : c₃.get j = some e := by
    rw [(add_dirs_ok h₃).2.1 j (fun a ha => by
      intro hh
      exact hjdi (hh ▸ List.mem_map_of_mem _ ha))]
    exact s₂
  have s₄ : c₄.get j = some e := by
    rw [(add_files_ok h₄).2.1 j (fun a ha => by
      intro hh
      exact hjfo (hh ▸ List.mem_map_of_mem _ ha))]
    exact s₃
  have s₅ : c₅.get j = some e := by
    rw [(add_dirs_ok h₅).2.1 j (fun a ha => by
      intro hh
      exact hjdo (hh ▸ List.mem_map_of_mem _ ha))]
    exact s₄
  have s₆ : c₆.get j = some e := (add_agent_ok hag).1 j e s₅
  have s₇ := (add_action_ok c₆ aid st et software
    (_unique_by_id (in_files ++ in_dirs))
    (_unique_by_id (out_files ++ out_dirs)) agent).1 j e s₆
  rw [hfin, rootFinalize_get]
  exact s₇

/-- Recording over a fresh action identifier (not colliding with anything
the call touches) inserts the CreateAction entity with this call's fields. -/
theorem update_crate_ok_action_fresh {fs : FileSystem} {c : Crate}
    {root : List String} {program : Program} {v : String}
    {ioargs : IOArgumentPaths} {aid st et user : String} {lic : Option String}
    {c' : Crate}
    (h : _update_crate fs c root program v ioargs aid st et user lic = .ok c')
    (ht : aid ∉ touchedIds root program v ioargs user)
    (hnone : c.get aid = none) :
    ∃ e, c'.get aid = some e ∧ e.kind = .createAction ∧ e.name = aid ∧
      e.startTime = st ∧ e.endTime = et ∧ e.agent = user ∧
      e.instrument = softwareId program.name v ∧
      e.object.Nodup ∧ e.result.Nodup := by
  obtain ⟨c₁, software, c₂, in_files, c₃, in_dirs, c₄, out_files, c₅, out_dirs,
    c₆, agent, hsw, h₂, h₃, h₄, h₅, hag, hfin⟩ := update_crate_ok_elim h
  rw [touchedIds, List.mem_cons, not_or, List.mem_cons, not_or, replacedIds,
    List.mem_cons, not_or] at ht
  obtain ⟨hprc, huser, hjs, hjrest⟩ := ht
  rw [List.mem_append, not_or, fileIdents, dirIdents, List.map_append,
    List.map_append, List.mem_append, List.mem_append, not_or, not_or] at hjrest
  obtain ⟨⟨hjfi, hjfo⟩, hjdi, hjdo⟩ := hjrest
  have s₀ : (conform_to_process_run_crate_profile c).get aid = none := by
    rw [(conform_profile_ok c).2.1 aid hprc]
    exact hnone
  have s₁ : c₁.get aid = none := by
    rw [(add_software_application_ok hsw).2.1 aid hjs]
    exact s₀
  have s₂ : c₂.get aid = none := by
    rw [(add_files_ok h₂).2.1 aid (fun a ha => by
      intro hh
      exact hjfi (hh ▸ List.mem_map_of_mem _ ha))]
    exact s₁
  have s₃ : c₃.get aid = none := by
    rw [(add_dirs_ok h₃).2.1 aid (fun a ha => by
      intro hh
      exact hjdi (hh ▸ List.mem_map_of_mem _ ha))]
    exact s₂
  have s₄ : c₄.get aid = none := by
    rw [(add_files_ok h₄).2.1 aid (fun a ha => by
      intro hh
      exact hjfo (hh ▸ List.mem_map_of_mem _ ha))]
    exact s₃
  have s₅ : c₅.get aid = none := by
    rw [(add_dirs_ok h₅).2.1 aid (fun a ha => by
      intro hh
      exact hjdo (hh ▸ List.mem_map_of_mem _ ha))]
    exact s₄
  have s₆ : c₆.get aid = none := by
    rw [(add_agent_ok hag).2.1 aid huser]
    exact s₅
  have hpost := (add_action_ok c₆ aid st et software
    (_unique_by_id (in_files ++ in_dirs))
    (_unique_by_id (out_files ++ out_dirs)) agent).2.2.2.2.2 s₆
  have hagent : agent.id = user := by
    rw [add_agent_snd hag]
  have hsoft : software.id = softwareId program.name v := by
    rw [(add_software_application_ok hsw).1]
    rfl
  exact ⟨_, by rw [hfin, rootFinalize_get]; exact hpost, rfl, rfl, rfl, rfl,
    hagent, hsoft, uniqueById_ids_nodup _, uniqueById_ids_nodup _⟩

/-- After a successful `_update_crate`, the SoftwareApplication identifier
holds an entity of that kind whose stored version is this call's version
(assuming the identifier is not shadowed by a data identifier of the call
and was not previously bound to a non-software entity). -/
theorem update_crate_ok_software {fs : FileSystem} {c : Crate}
    {root : List String} {program : Program} {v : String}
    {ioargs : IOArgumentPaths} {aid st et user : String} {lic : Option String}
    {c' : Crate}
    (h : _update_crate fs c root program v ioargs aid st et user lic = .ok c')
    (hkind : ∀ e, c.get (softwareId program.name v) = some e →
      e.kind = .softwareApplication)
    (hnp : softwareId program.name v ≠ processRunCrateId)
    (hnb : softwareId program.name v ∉ fileIdents root ioargs ++ dirIdents root ioargs) :
    ∃ e, c'.get (softwareId program.name v) = some e ∧
      e.kind = .softwareApplication ∧ e.version = some v := by
  obtain ⟨c₁, software, c₂, in_files, c₃, in_dirs, c₄, out_files, c₅, out_dirs,
    c₆, agent, hsw, h₂, h₃, h₄, h₅, hag, hfin⟩ := update_crate_ok_elim h
  rw [List.mem_append, not_or, fileIdents, dirIdents, List.map_append,
    List.map_append, List.mem_append, List.mem_append, not_or, not_or] at hnb
  obtain ⟨⟨hjfi, hjfo⟩, hjdi, hjdo⟩ := hnb
  have hkind₀ : ∀ e, (conform_to_process_run_crate_profile c).get
      (softwareId program.name v) = some e → e.kind = .softwareApplication := by
    intro e he
    rw [(conform_profile_ok c).2.1 _ hnp] at he
    exact hkind e he
  obtain ⟨e₁, he₁, hke₁, hve₁⟩ :=
    (add_software_application_ok hsw).2.2.2.2.2 hkind₀
  have s₂ : c₂.get (softwareId program.name v) = some e₁ := by
    rw [(add_files_ok h₂).2.1 _ (fun a ha => by
      intro hh
      exact hjfi (hh ▸ List.mem_map_of_mem _ ha))]
    exact he₁
  have s₃ : c₃.get (softwareId program.name v) = some e₁ := by
    rw [(add_dirs_ok h₃).2.1 _ (fun a ha => by
      intro hh
      exact hjdi (hh ▸ List.mem_map_of_mem _ ha))]
    exact s₂
  have s₄ : c₄.get (softwareId program.name v) = some e₁ := by
    rw [(add_files_ok h₄).2.1 _ (fun a ha => by
      intro hh
      exact hjfo (hh ▸ List.mem_map_of_mem _ ha))]
    exact s₃
  have s₅ : c₅.get (softwareId program.name v) = some e₁ := by
    rw [(add_dirs_ok h₅).2.1 _ (fun a ha => by
      intro hh
      exact hjdo (hh ▸ List.mem_map_of_mem _ ha))]
    exact s₄
  have s₆ : c₆.get (softwareId program.name v) = some e₁ :=
    (add_agent_ok hag).1 _ e₁ s₅
  have s₇ := (add_action_ok c₆ aid st et software
    (_unique_by_id (in_files ++ in_dirs))
    (_unique_by_id (out_files ++ out_dirs)) agent).1 _ e₁ s₆
  refine ⟨e₁, ?_, hke₁, hve₁⟩
  rw [hfin, rootFinalize_get]
  exact s₇

/-- After a successful `_update_crate`, every directory argument whose bare
relative identifier is not shadowed ends up as a Dataset entity stored at the
relative identifier with the trailing separator. -/
theorem update_crate_ok_dir {fs : FileSystem} {c : Crate}
    {root : List String} {program : Program} {v : String}
    {ioargs : IOArgumentPaths} {aid st et user : String} {lic : Option String}
    {c' : Crate} {a : IOArgumentPath}
    (h : _update_crate fs c root program v ioargs aid st et user lic = .ok c')
    (ha : a ∈ ioargs.input_dirs ++ ioargs.output_dirs)
    (hnd : NotDatasetAt c (fileIdent root a))
    (hno : fileIdent root a ∉ dirIdents root ioargs)
    (hnf : dirIdent root a ∉ fileIdents root ioargs) :
    ∃ e, c'.get (dirIdent root a) = some e ∧ e.kind = .dataset ∧
      e.id = dirIdent root a := by
  obtain ⟨c₁, software, c₂, in_files, c₃, in_dirs, c₄, out_files, c₅, out_dirs,
    c₆, agent, hsw, h₂, h₃, h₄, h₅, hag, hfin⟩ := update_crate_ok_elim h
  rw [dirIdents, List.map_append, List.mem_append, not_or] at hno
  obtain ⟨hnoi, hnoo⟩ := hno
  rw [fileIdents, List.map_append, List.mem_append, not_or] at hnf
  obtain ⟨hnfi, hnfo⟩ := hnf
  have hnd₀ : NotDatasetAt (conform_to_process_run_crate_profile c)
      (fileIdent root a) := (conform_profile_ok c).2.2.2.2 _ hnd
  have hnd₁ : NotDatasetAt c₁ (fileIdent root a) :=
    (add_software_application_ok hsw).2.2.2.2.1 _ hnd₀
  have hnd₂ : NotDatasetAt c₂ (fileIdent root a) :=
    (add_files_ok h₂).2.2.2.2 _ hnd₁
  have hds : DatasetStoredAt c₅ (dirIdent root a) := by
    rcases List.mem_append.mp ha with hmem | hmem
    · have hds₃ : DatasetStoredAt c₃ (dirIdent root a) :=
        (add_dirs_ok h₃).2.2.2.2.2.2 a hmem hnd₂ (fun b hb => by
          intro hh
          exact hnoi (hh ▸ List.mem_map_of_mem _ hb))
      obtain ⟨e, he, hek, hei⟩ := hds₃
      have hds₄ : c₄.get (dirIdent root a) = some e := by
        rw [(add_files_ok h₄).2.1 _ (fun b hb => by
          intro hh
          exact hnfo (hh ▸ List.mem_map_of_mem _ hb))]
        exact he
      exact (add_dirs_ok h₅).2.2.2.2.2.1 _ ⟨e, hds₄, hek, hei⟩
    · have hnd₃ : NotDatasetAt c₃ (fileIdent root a) :=
        (add_dirs_ok h₃).2.2.2.2.1 _ (fun b hb => by
          intro hh
          exact hnoi (hh ▸ List.mem_map_of_mem _ hb)) hnd₂
      have hnd₄ : NotDatasetAt c₄ (fileIdent root a) :=
        (add_files_ok h₄).2.2.2.2 _ hnd₃
      exact (add_dirs_ok h₅).2.2.2.2.2.2 a hmem hnd₄ (fun b hb => by
        intro hh
        exact hnoo (hh ▸ List.mem_map_of_mem _ hb))
  obtain ⟨e, he, hek, hei⟩ := hds
  have s₆ : c₆.get (dirIdent root a) = some e := (add_agent_ok hag).1 _ e he
  have s₇ := (add_action_ok c₆ aid st et software
    (_unique_by_id (in_files ++ in_dirs))
    (_unique_by_id (out_files ++ out_dirs)) agent).1 _ e s₆
  refine ⟨e, ?_, hek, hei⟩
  rw [hfin, rootFinalize_get]
  exact s₇

/-- After a successful `_update_crate`, the last file argument carrying a
given relative identifier (not shadowed by a directory identifier) leaves a
File entity with that call's freshly read size, MIME type and help text. -/
theorem update_crate_ok_file {fs : FileSystem} {c : Crate}
    {root : List String} {program : Program} {v : String}
    {ioargs : IOArgumentPaths} {aid st et user : String} {lic : Option String}
    {c' : Crate} {l₁ l₂ : List IOArgumentPath} {a : IOArgumentPath}
    (h : _update_crate fs c root program v ioargs aid st et user lic = .ok c')
    (hsplit : ioargs.input_files ++ ioargs.output_files = l₁ ++ a :: l₂)
    (hlast : ∀ b ∈ l₂, fileIdent root b ≠ fileIdent root a)
    (hno : fileIdent root a ∉ dirIdents root ioargs) :
    ∃ e, c'.get (fileIdent root a) = some e ∧ e.kind = .file ∧
      e.description = a.help ∧ e.contentSize = some (fs.size a.path) ∧
      e.encodingFormat = fs.mime a.path := by
  obtain ⟨c₁, software, c₂, in_files, c₃, in_dirs, c₄, out_files, c₅, out_dirs,
    c₆, agent, hsw, h₂, h₃, h₄, h₅, hag, hfin⟩ := update_crate_ok_elim h
  rw [dirIdents, List.map_append, List.mem_append, not_or] at hno
  obtain ⟨hnoi, hnoo⟩ := hno
  have hfile : ∃ e, c₅.get (fileIdent root a) = some e ∧ e.kind = .file ∧
      e.description = a.help ∧ e.contentSize = some (fs.size a.path) ∧
      e.encodingFormat = fs.mime a.path := by
    rcases List.append_eq_append_iff.mp hsplit with ⟨w, hw₁, hw₂⟩ | ⟨w, hw₁, hw₂⟩
    · -- `l₁ = input_files ++ w`, `output_files = w ++ a :: l₂`
      obtain ⟨e, he, hek, hed, hec, hee⟩ :=
        add_files_ok_last w (by rw [← hw₂]; exact h₄) hlast
      refine ⟨e, ?_, hek, hed, hec, hee⟩
      rw [(add_dirs_ok h₅).2.1 _ (fun b hb => by
        intro hh
        exact hnoo (hh ▸ List.mem_map_of_mem _ hb))]
      exact he
    · -- `input_files = l₁ ++ w`, `a :: l₂ = w ++ output_files`
      cases w with
      | nil =>
        -- `a` heads `output_files`
        rw [List.nil_append] at hw₂
        obtain ⟨e, he, hek, hed, hec, hee⟩ :=
          add_files_ok_last ([] : List IOArgumentPath)
            (c := c₃) (by rw [List.nil_append, hw₂]; exact h₄) hlast
        refine ⟨e, ?_, hek, hed, hec, hee⟩
        rw [(add_dirs_ok h₅).2.1 _ (fun b hb => by
          intro hh
          exact hnoo (hh ▸ List.mem_map_of_mem _ hb))]
        exact he
      | cons x xs =>
        -- `a = x` is in `input_files`, `l₂ = xs ++ output_files`
        rw [List.cons_append] at hw₂
        injection hw₂ with hax hl₂
        subst hax
        have hxs : ∀ b ∈ xs, fileIdent root b ≠ fileIdent root a := by
          intro b hb
          exact hlast b (by rw [hl₂]; exact List.mem_append_left _ hb)
        have hos : ∀ b ∈ ioargs.output_files,
            fileIdent root b ≠ fileIdent root a := by
          intro b hb
          exact hlast b (by rw [hl₂]; exact List.mem_append_right _ hb)
        obtain ⟨e, he, hek, hed, hec, hee⟩ :=
          add_files_ok_last l₁ (by rw [← hw₁]; exact h₂) hxs
        have s₃ : c₃.get (fileIdent root a) = some e := by
          rw [(add_dirs_ok h₃).2.1 _ (fun b hb => by
            intro hh
            exact hnoi (hh ▸ List.mem_map_of_mem _ hb))]
          exact he
        have s₄ : c₄.get (fileIdent root a) = some e := by
          rw [(add_files_ok h₄).2.1 _ (fun b hb => (hos b hb).symm)]
          exact s₃
        refine ⟨e, ?_, hek, hed, hec, hee⟩
        rw [(add_dirs_ok h₅).2.1 _ (fun b hb => by
          intro hh
          exact hnoo (hh ▸ List.mem_map_of_mem _ hb))]
        exact s₄
  obtain ⟨e, he, hek, hed, hec, hee⟩ := hfile
  have s₆ : c₆.get (fileIdent root a) = some e := (add_agent_ok hag).1 _ e he
  have s₇ := (add_action_ok c₆ aid st et software
    (_unique_by_id (in_files ++ in_dirs))
    (_unique_by_id (out_files ++ out_dirs)) agent).1 _ e s₆
  refine ⟨e, ?_, hek, hed, hec, hee⟩
  rw [hfin, rootFinalize_get]
  exact s₇

/-! ## String identity helpers -/

/-- Appending the separator changes the identifier. -/
theorem ne_append_separator (s : String) : s ++ "/" ≠ s := by
  intro h
  have hlen := congrArg String.length h
  rw [String.length_append] at hlen
  have h1 : ("/" : String).length = 1 := rfl
  rw [h1] at hlen
  omega

/-- Distinct versions yield distinct SoftwareApplication identifiers. -/
theorem softwareId_version_ne {n v v' : String} (h : v ≠ v') :
    softwareId n v ≠ softwareId n v' := by
  have key : ∀ w : String, w ≠ "" → n ≠ n ++ "@" ++ w := by
    intro w hw hh
    have hlen := congrArg String.length hh
    rw [String.length_append, String.length_append] at hlen
    have h1 : ("@" : String).length = 1 := rfl
    rw [h1] at hlen
    have hz : w.length = 0 := by omega
    exact hw (String.ext (List.length_eq_zero.mp hz))
  rw [softwareId, softwareId]
  by_cases hv : v = ""
  · have hv' : v' ≠ "" := fun hh => h (hv.trans hh.symm)
    rw [if_neg (by simp [hv]), if_pos hv']
    exact key v' hv'
  · by_cases hv' : v' = ""
    · rw [if_pos hv, if_neg (by simp [hv'])]
      exact fun hh => key v hv hh.symm
    · rw [if_pos hv, if_pos hv']
      intro hh
      apply h
      have hd := congrArg String.data hh
      rw [String.data_append, String.data_append, String.data_append,
        String.data_append] at hd
      exact String.ext (List.append_cancel_left hd)

/-! ## Playback support -/

/-- When a function is total on a list, `filterMap` is a `map`. -/
theorem filterMap_eq_map_of_forall_some {α β : Type} {f : α → Option β}
    {g : α → β} : ∀ {l : List α}, (∀ a ∈ l, f a = some (g a)) →
    l.filterMap f = l.map g := by
  intro l
  induction l with
  | nil => intro _; rfl
  | cons x xs ih =>
    intro hall
    rw [List.filterMap_cons, hall x (List.mem_cons_self x xs), List.map_cons,
      ih (fun a ha => hall a (List.mem_cons_of_mem x ha))]

/-- `playback`'s comparison is transitive. -/
theorem playback_le_trans : ∀ a b c : String × String,
    (fun a b : String × String => (a.1 ≤ b.1 : Bool)) a b →
    (fun a b : String × String => (a.1 ≤ b.1 : Bool)) b c →
    (fun a b : String × String => (a.1 ≤ b.1 : Bool)) a c := by
  intro a b c hab hbc
  simp only [decide_eq_true_eq] at hab hbc ⊢
  exact le_trans hab hbc

/-- `playback`'s comparison is total. -/
theorem playback_le_total : ∀ a b : String × String,
    ((fun a b : String × String => (a.1 ≤ b.1 : Bool)) a b ||
     (fun a b : String × String => (a.1 ≤ b.1 : Bool)) b a) := by
  intro a b
  simpa using le_total a.1 b.1

/-! ## Claim theorems -/

/-- `recordOnce` is `_record_run`, which is `_update_crate` on the loaded
(or fresh) crate. -/
theorem recordOnce_eq (root : List String) (doc : Option Crate)
    (call : RecordCall) :
    recordOnce root doc call =
      _update_crate call.fs (doc.getD {}) root call.program
        call.software_version call.ioargs call.action_id call.start_time
        call.end_time call.current_user call.dataset_license := rfl

theorem diskAfter_of_error {root : List String} {doc : Option Crate}
    {call : RecordCall} {e : RecErr}
    (h : recordOnce root doc call = .error e) :
    diskAfter root doc call = doc := by
  unfold diskAfter
  rw [h]

/-- C1: if any supplied input/output path does not resolve inside the crate
root, the recording call raises the path-containment `ValueError` and the
on-disk provenance document is left exactly as it was (absent stays absent,
an existing document keeps its content). -/
theorem c1_path_containment {root : List String} {doc : Option Crate}
    {call : RecordCall}
    (hbad : ∃ a ∈ call.ioargs.input_files ++ call.ioargs.input_dirs ++
      call.ioargs.output_files ++ call.ioargs.output_dirs,
      root.isPrefixOf a.path = false) :
    (∃ p r, recordOnce root doc call = .error (.pathOutsideRoot p r)) ∧
    diskAfter root doc call = doc := by
  cases hrec : recordOnce root doc call with
  | ok c' =>
    exfalso
    obtain ⟨a, ha, hnp⟩ := hbad
    rw [recordOnce_eq] at hrec
    have := update_crate_ok_paths hrec a ha
    rw [this] at hnp
    cases hnp
  | error e =>
    cases e with
    | pathOutsideRoot p r =>
      exact ⟨⟨p, r, rfl⟩, diskAfter_of_error hrec⟩

/-- A concrete recording call whose input path lies outside the root. -/
def c1Call : RecordCall :=
  { fs := ⟨fun _ => 7, fun _ => "text/plain"⟩
    program := ⟨"myscript", "Example CLI"⟩
    software_version := "1.0.0"
    ioargs := { input_files := [⟨"input", ["other", "f.txt"], "Input file"⟩] }
    action_id := "myscript f.txt"
    start_time := "2026-01-16T12:00:00"
    end_time := "2026-01-16T12:00:05"
    current_user := "alice"
    dataset_license := some "CC-BY-4.0" }

/-- C1 witness: the out-of-root call errors and writes nothing. -/
theorem c1_path_containment_witness :
    (∃ a ∈ c1Call.ioargs.input_files ++ c1Call.ioargs.input_dirs ++
      c1Call.ioargs.output_files ++ c1Call.ioargs.output_dirs,
      (["work"] : List String).isPrefixOf a.path = false) ∧
    (∃ p r, recordOnce ["work"] none c1Call = .error (.pathOutsideRoot p r)) ∧
    diskAfter ["work"] none c1Call = none :=
  ⟨⟨⟨"input", ["other", "f.txt"], "Input file"⟩, by decide, by decide⟩,
    c1_path_containment ⟨⟨"input", ["other", "f.txt"], "Input file"⟩,
      by decide, by decide⟩⟩

/-- C7: for a directory argument inside the crate root (whose identifiers are
not shadowed by other identifiers of the call or a pre-existing bare-id
Dataset), the resulting document stores a Dataset entity whose identifier is
the crate-root-relative path with a trailing separator — distinct from the
File identifier for the same relative path. -/
theorem c7_directory_identity {root : List String} {doc : Option Crate}
    {call : RecordCall} {c' : Crate} {a : IOArgumentPath}
    (h : recordOnce root doc call = .ok c')
    (ha : a ∈ call.ioargs.input_dirs ++ call.ioargs.output_dirs)
    (hnd : NotDatasetAt (doc.getD {}) (fileIdent root a))
    (hno : fileIdent root a ∉ dirIdents root call.ioargs)
    (hnf : dirIdent root a ∉ fileIdents root call.ioargs) :
    ∃ e, c'.get (dirIdent root a) = some e ∧ e.kind = .dataset ∧
      e.id = relPathStr (a.path.drop root.length) ++ "/" ∧
      e.id ≠ relPathStr (a.path.drop root.length) := by
  rw [recordOnce_eq] at h
  obtain ⟨e, he, hek, hei⟩ := update_crate_ok_dir h ha hnd hno hnf
  refine ⟨e, he, hek, hei, ?_⟩
  rw [hei]
  exact ne_append_separator _

/-- A concrete recording call with the in-root input directory `data`. -/
def c7Call : RecordCall :=
  { fs := ⟨fun _ => 7, fun _ => "text/plain"⟩
    program := ⟨"dirscript", "Directory processor"⟩
    software_version := "1.0.0"
    ioargs := { input_dirs := [⟨"input_dir", ["work", "data"], "Input directory"⟩] }
    action_id := "dirscript data"
    start_time := "2026-01-16T12:00:00"
    end_time := "2026-01-16T12:00:05"
    current_user := "alice"
    dataset_license := some "CC-BY-4.0" }

/-- The argument of `c7Call`. -/
def c7Arg : IOArgumentPath := ⟨"input_dir", ["work", "data"], "Input directory"⟩

/-- C7 witness: recording the in-root directory `data` creates the Dataset
entity `data/`, distinct from the file identifier `data`. -/
theorem c7_directory_identity_witness :
    ∃ c', recordOnce ["work"] none c7Call = .ok c' ∧
      ∃ e, c'.get (dirIdent ["work"] c7Arg) = some e ∧ e.kind = .dataset ∧
        e.id = relPathStr (c7Arg.path.drop (["work"] : List String).length) ++ "/" ∧
        e.id ≠ relPathStr (c7Arg.path.drop (["work"] : List String).length) := by
  have h : recordOnce ["work"] none c7Call =
      .ok ((recordOnce ["work"] none c7Call).toOption.getD {}) := by rfl
  exact ⟨_, h, c7_directory_identity h (by decide)
    (by
      intro e he
      exact Option.noConfusion ((rfl : (none : Option Entity) =
        ((none : Option Crate).getD {}).get (fileIdent ["work"] c7Arg)).trans he))
    (by decide) (by decide)⟩

/-- C8: the root summary's license is only set when a truthy license is
supplied and never cleared: a call without a license (or with an empty one)
leaves the stored license exactly as it was, and a call with a non-empty
license sets it to that value. -/
theorem c8_license_never_cleared {root : List String} {doc : Option Crate}
    {call : RecordCall} {c' : Crate}
    (h : recordOnce root doc call = .ok c') :
    ((call.dataset_license = none ∨ call.dataset_license = some "") →
      c'.rootLicense = (doc.getD {}).rootLicense) ∧
    (∀ l, call.dataset_license = some l → l ≠ "" → c'.rootLicense = l) := by
  rw [recordOnce_eq] at h
  obtain ⟨h1, h2, -, -, -⟩ := update_crate_ok_root h
  exact ⟨h1, h2⟩

/-- A call without a license, for the C8 witness. -/
def c8Call : RecordCall :=
  { fs := ⟨fun _ => 7, fun _ => "text/plain"⟩
    program := ⟨"myscript", "Example CLI"⟩
    software_version := "1.0.0"
    ioargs := {}
    action_id := "myscript"
    start_time := "2026-01-16T12:00:00"
    end_time := "2026-01-16T12:00:05"
    current_user := "alice"
    dataset_license := none }

/-- A document whose root entity already carries a license. -/
def c8Doc : Crate := { rootLicense := "CC-BY-4.0" }

/-- C8 witness: recording without a license keeps the stored license. -/
theorem c8_license_never_cleared_witness :
    ∃ c', recordOnce ["work"] (some c8Doc) c8Call = .ok c' ∧
      (c8Call.dataset_license = none ∨ c8Call.dataset_license = some "") ∧
      c'.rootLicense = ((some c8Doc).getD {}).rootLicense ∧
      c'.rootLicense = "CC-BY-4.0" := by
  have h : recordOnce ["work"] (some c8Doc) c8Call =
      .ok ((recordOnce ["work"] (some c8Doc) c8Call).toOption.getD {}) := by rfl
  refine ⟨_, h, Or.inl rfl, (c8_license_never_cleared h).1 (Or.inl rfl), ?_⟩
  rw [(c8_license_never_cleared h).1 (Or.inl rfl)]
  rfl

/-- C10: the root summary's name and description are write-once: when both
are already non-empty they are unchanged by a recording call (whatever the
program name), and when empty they are set to the values derived from the
program name. -/
theorem c10_root_name_write_once {root : List String} {doc : Option Crate}
    {call : RecordCall} {c' : Crate}
    (h : recordOnce root doc call = .ok c') :
    ((doc.getD {}).rootName ≠ "" → c'.rootName = (doc.getD {}).rootName) ∧
    ((doc.getD {}).rootDescription ≠ "" →
      c'.rootDescription = (doc.getD {}).rootDescription) ∧
    ((doc.getD {}).rootName = "" →
      c'.rootName = "Files used by " ++ call.program.name) ∧
    ((doc.getD {}).rootDescription = "" →
      c'.rootDescription =
        "An RO-Crate recording the files and directories that were used as input or output by "
          ++ call.program.name ++ ".") := by
  rw [recordOnce_eq] at h
  obtain ⟨-, -, -, h3, h4⟩ := update_crate_ok_root h
  refine ⟨?_, ?_, ?_, ?_⟩
  · intro hne
    rw [h3, if_neg hne]
  · intro hne
    rw [h4, if_neg hne]
  · intro he
    rw [h3, if_pos he]
  · intro he
    rw [h4, if_pos he]

/-- A document whose root entity already has a name and description. -/
def c10Doc : Crate :=
  { rootName := "myscript actions", rootDescription := "Existing description" }

/-- A call with a different program name, for the C10 witness. -/
def c10Call : RecordCall :=
  { fs := ⟨fun _ => 7, fun _ => "text/plain"⟩
    program := ⟨"otherscript", "Another CLI"⟩
    software_version := "2.0.0"
    ioargs := {}
    action_id := "otherscript"
    start_time := "2026-01-17T12:00:00"
    end_time := "2026-01-17T12:00:05"
    current_user := "bob"
    dataset_license := some "CC-BY-4.0" }

/-- C10 witness: a call with a different program name leaves the existing
root name and description untouched. -/
theorem c10_root_name_write_once_witness :
    ∃ c', recordOnce ["work"] (some c10Doc) c10Call = .ok c' ∧
      ((some c10Doc).getD {}).rootName ≠ "" ∧
      ((some c10Doc).getD {}).rootDescription ≠ "" ∧
      c'.rootName = "myscript actions" ∧
      c'.rootDescription = "Existing description" := by
  have h : recordOnce ["work"] (some c10Doc) c10Call =
      .ok ((recordOnce ["work"] (some c10Doc) c10Call).toOption.getD {}) := by rfl
  refine ⟨_, h, by decide, by decide, ?_, ?_⟩
  · rw [(c10_root_name_write_once h).1 (by decide)]
    rfl
  · rw [(c10_root_name_write_once h).2.1 (by decide)]
    rfl

theorem not_mem_replaced_of_not_mem_touched {root : List String}
    {program : Program} {v : String} {ioargs : IOArgumentPaths}
    {user j : String} (h : j ∉ touchedIds root program v ioargs user) :
    j ∉ replacedIds root program v ioargs := by
  intro hm
  exact h (List.mem_cons_of_mem _ (List.mem_cons_of_mem _ hm))

/-- C2: recording twice with the same action identifier (one that collides
with no other identifier either call touches, and that was not previously
bound to a non-Action entity) leaves exactly one CreateAction entity with
that identifier, and the second call does not modify that entity at all:
its timestamps, agent, instrument, object and result links are those the
first call left behind. -/
theorem c2_idempotent_action {root : List String} {doc₀ : Option Crate}
    {call₁ call₂ : RecordCall} {c₁ c₂ : Crate}
    (hn : (idsOf (doc₀.getD {}).graph).Nodup)
    (hix : ∀ e, (doc₀.getD {}).get call₁.action_id = some e →
      e.kind = .createAction)
    (hid : call₂.action_id = call₁.action_id)
    (ht₁ : call₁.action_id ∉ touchedIds root call₁.program
      call₁.software_version call₁.ioargs call₁.current_user)
    (ht₂ : call₁.action_id ∉ touchedIds root call₂.program
      call₂.software_version call₂.ioargs call₂.current_user)
    (h₁ : recordOnce root doc₀ call₁ = .ok c₁)
    (h₂ : recordOnce root (some c₁) call₂ = .ok c₂) :
    ∃ e, c₂.get call₁.action_id = some e ∧ e.kind = .createAction ∧
      c₁.get call₁.action_id = some e ∧
      (c₂.graph.filter (fun x => x.id == call₁.action_id)).length = 1 := by
  rw [recordOnce_eq] at h₁ h₂
  have hafter₁ : ∃ e, c₁.get call₁.action_id = some e ∧
      e.kind = .createAction := by
    cases hg : (doc₀.getD {}).get call₁.action_id with
    | some e0 =>
      exact ⟨e0, update_crate_ok_preserve_some h₁
        (not_mem_replaced_of_not_mem_touched ht₁) e0 hg, hix e0 hg⟩
    | none =>
      obtain ⟨e, he, hek, -⟩ := update_crate_ok_action_fresh h₁ ht₁ hg
      exact ⟨e, he, hek⟩
  obtain ⟨e, he₁, hek⟩ := hafter₁
  have he₂ : c₂.get call₁.action_id = some e :=
    update_crate_ok_preserve_some h₂
      (not_mem_replaced_of_not_mem_touched ht₂) e he₁
  have hn₂ : (idsOf c₂.graph).Nodup :=
    update_crate_ok_nodup h₂ (update_crate_ok_nodup h₁ hn)
  exact ⟨e, he₂, hek, he₁, length_filter_id_eq_one hn₂ he₂⟩

/-- The shared recording call for the C2 witness. -/
def c2Call : RecordCall :=
  { fs := ⟨fun _ => 7, fun _ => "text/plain"⟩
    program := ⟨"myscript", "Example CLI"⟩
    software_version := "1.0.0"
    ioargs := { input_files := [⟨"input", ["work", "in.txt"], "Input file"⟩] }
    action_id := "myscript --input in.txt"
    start_time := "2026-01-16T12:00:00"
    end_time := "2026-01-16T12:00:05"
    current_user := "alice"
    dataset_license := some "CC-BY-4.0" }

/-- C2 witness: running the same command twice on an empty document keeps a
single unchanged CreateAction entity. -/
theorem c2_idempotent_action_witness :
    ∃ c₁ c₂, recordOnce ["work"] none c2Call = .ok c₁ ∧
      recordOnce ["work"] (some c₁) c2Call = .ok c₂ ∧
      ∃ e, c₂.get c2Call.action_id = some e ∧ e.kind = .createAction ∧
        c₁.get c2Call.action_id = some e ∧
        (c₂.graph.filter (fun x => x.id == c2Call.action_id)).length = 1 := by
  have h₁ : recordOnce ["work"] none c2Call =
      .ok ((recordOnce ["work"] none c2Call).toOption.getD {}) := by rfl
  have h₂ : recordOnce ["work"]
      (some ((recordOnce ["work"] none c2Call).toOption.getD {})) c2Call =
      .ok ((recordOnce ["work"]
        (some ((recordOnce ["work"] none c2Call).toOption.getD {}))
        c2Call).toOption.getD {}) := by rfl
  exact ⟨_, _, h₁, h₂, c2_idempotent_action (by decide)
    (by
      intro e he
      exact Option.noConfusion ((rfl : (none : Option Entity) =
        ((none : Option Crate).getD {}).get c2Call.action_id).trans he))
    rfl (by decide) (by decide) h₁ h₂⟩

/-- C3: when two recording calls reference the same crate-root-relative file
path (the second call binding it last as `a₂`, with the identifier not
shadowed by a directory identifier), the final document holds exactly one
File entity at that identifier, and its `contentSize`, `encodingFormat` and
`description` are the ones read from the filesystem state of the second
call — the size is re-read, not carried over from the first call. -/
theorem c3_file_refresh {root : List String} {doc₀ : Option Crate}
    {call₁ call₂ : RecordCall} {c₁ c₂ : Crate}
    (l₁ l₂ : List IOArgumentPath) (a₁ a₂ : IOArgumentPath)
    (hn : (idsOf (doc₀.getD {}).graph).Nodup)
    (h₁ : recordOnce root doc₀ call₁ = .ok c₁)
    (h₂ : recordOnce root (some c₁) call₂ = .ok c₂)
    (hmem₁ : a₁ ∈ call₁.ioargs.input_files ++ call₁.ioargs.output_files)
    (hsame : fileIdent root a₂ = fileIdent root a₁)
    (hsplit : call₂.ioargs.input_files ++ call₂.ioargs.output_files =
      l₁ ++ a₂ :: l₂)
    (hlast : ∀ b ∈ l₂, fileIdent root b ≠ fileIdent root a₂)
    (hno : fileIdent root a₂ ∉ dirIdents root call₂.ioargs) :
    ∃ e, c₂.get (fileIdent root a₂) = some e ∧ e.kind = .file ∧
      e.description = a₂.help ∧
      e.contentSize = some (call₂.fs.size a₂.path) ∧
      e.encodingFormat = call₂.fs.mime a₂.path ∧
      (c₂.graph.filter (fun x => x.id == fileIdent root a₂)).length = 1 := by
  rw [recordOnce_eq] at h₁ h₂
  obtain ⟨e, he, hek, hed, hec, hee⟩ := update_crate_ok_file h₂ hsplit hlast hno
  have hn₂ : (idsOf c₂.graph).Nodup :=
    update_crate_ok_nodup h₂ (update_crate_ok_nodup h₁ hn)
  exact ⟨e, he, hek, hed, hec, hee, length_filter_id_eq_one hn₂ he⟩

/-- The first C3 call: output `out.txt`, 7 bytes on disk. -/
def c3CallA : RecordCall :=
  { fs := ⟨fun _ => 7, fun _ => "text/plain"⟩
    program := ⟨"myscript", "Example CLI"⟩
    software_version := "1.0.0"
    ioargs := { output_files := [⟨"output", ["work", "out.txt"], "Output file"⟩] }
    action_id := "myscript --output out.txt"
    start_time := "2026-01-16T12:00:00"
    end_time := "2026-01-16T12:00:05"
    current_user := "alice"
    dataset_license := some "CC-BY-4.0" }

/-- The second C3 call: same path, now 12 bytes on disk, new help text. -/
def c3CallB : RecordCall :=
  { fs := ⟨fun _ => 12, fun _ => "text/plain"⟩
    program := ⟨"myscript", "Example CLI"⟩
    software_version := "1.0.0"
    ioargs := { input_files := [⟨"input", ["work", "out.txt"], "Input file"⟩] }
    action_id := "myscript --input out.txt"
    start_time := "2026-01-16T13:00:00"
    end_time := "2026-01-16T13:00:07"
    current_user := "alice"
    dataset_license := some "CC-BY-4.0" }

/-- C3 witness: re-recording `out.txt` yields one File entity whose size is
the second call's 12 bytes. -/
theorem c3_file_refresh_witness :
    ∃ c₁ c₂, recordOnce ["work"] none c3CallA = .ok c₁ ∧
      recordOnce ["work"] (some c₁) c3CallB = .ok c₂ ∧
      ∃ e, c₂.get (fileIdent ["work"] ⟨"input", ["work", "out.txt"], "Input file"⟩)
          = some e ∧ e.kind = .file ∧
        e.description = "Input file" ∧ e.contentSize = some 12 ∧
        e.encodingFormat = "text/plain" ∧
        (c₂.graph.filter (fun x => x.id ==
          fileIdent ["work"] ⟨"input", ["work", "out.txt"], "Input file"⟩)).length
          = 1 := by
  have h₁ : recordOnce ["work"] none c3CallA =
      .ok ((recordOnce ["work"] none c3CallA).toOption.getD {}) := by rfl
  have h₂ : recordOnce ["work"]
      (some ((recordOnce ["work"] none c3CallA).toOption.getD {})) c3CallB =
      .ok ((recordOnce ["work"]
        (some ((recordOnce ["work"] none c3CallA).toOption.getD {}))
        c3CallB).toOption.getD {}) := by rfl
  exact ⟨_, _, h₁, h₂,
    c3_file_refresh [] [] ⟨"output", ["work", "out.txt"], "Output file"⟩
      ⟨"input", ["work", "out.txt"], "Input file"⟩
      (by decide) h₁ h₂ (by decide) (by decide) rfl
      (by decide) (by decide)⟩

/-- C4: the SoftwareApplication identifier is `name@version` for a non-empty
version and the bare name otherwise; two recordings with the same name and
version collapse to a single SoftwareApplication entity, while a second
recording with a different version adds a distinct second entity (in each
scenario the identifier must not collide with the call's data identifiers or
the profile identifier, and must not be pre-bound to a non-software
entity). -/
theorem c4_software_identity :
    (∀ n ver : String, softwareId n ver =
      if ver ≠ "" then n ++ "@" ++ ver else n) ∧
    (∀ (root : List String) (doc₀ : Option Crate) (call₁ call₂ : RecordCall)
      (c₁ c₂ : Crate),
      (idsOf (doc₀.getD {}).graph).Nodup →
      call₂.program.name = call₁.program.name →
      call₂.software_version = call₁.software_version →
      (∀ e, (doc₀.getD {}).get
        (softwareId call₁.program.name call₁.software_version) = some e →
        e.kind = .softwareApplication) →
      softwareId call₁.program.name call₁.software_version ≠ processRunCrateId →
      softwareId call₁.program.name call₁.software_version ∉
        fileIdents root call₁.ioargs ++ dirIdents root call₁.ioargs →
      softwareId call₁.program.name call₁.software_version ∉
        fileIdents root call₂.ioargs ++ dirIdents root call₂.ioargs →
      recordOnce root doc₀ call₁ = .ok c₁ →
      recordOnce root (some c₁) call₂ = .ok c₂ →
      ∃ e, c₂.get (softwareId call₁.program.name call₁.software_version)
          = some e ∧
        e.kind = .softwareApplication ∧
        e.version = some call₁.software_version ∧
        (c₂.graph.filter (fun x => x.id ==
          softwareId call₁.program.name call₁.software_version)).length = 1) ∧
    (∀ (root : List String) (doc₀ : Option Crate) (call₁ call₂ : RecordCall)
      (c₁ c₂ : Crate),
      call₂.program.name = call₁.program.name →
      call₂.software_version ≠ call₁.software_version →
      (∀ e, (doc₀.getD {}).get
        (softwareId call₁.program.name call₁.software_version) = some e →
        e.kind = .softwareApplication) →
      softwareId call₁.program.name call₁.software_version ≠ processRunCrateId →
      softwareId call₁.program.name call₁.software_version ∉
        fileIdents root call₁.ioargs ++ dirIdents root call₁.ioargs →
      (∀ e, c₁.get
        (softwareId call₂.program.name call₂.software_version) = some e →
        e.kind = .softwareApplication) →
      softwareId call₂.program.name call₂.software_version ≠ processRunCrateId →
      softwareId call₂.program.name call₂.software_version ∉
        fileIdents root call₂.ioargs ++ dirIdents root call₂.ioargs →
      softwareId call₁.program.name call₁.software_version ∉
        fileIdents root call₂.ioargs ++ dirIdents root call₂.ioargs →
      recordOnce root doc₀ call₁ = .ok c₁ →
      recordOnce root (some c₁) call₂ = .ok c₂ →
      ∃ e₁ e₂, c₂.get (softwareId call₁.program.name call₁.software_version)
          = some e₁ ∧
        e₁.kind = .softwareApplication ∧
        e₁.version = some call₁.software_version ∧
        c₂.get (softwareId call₂.program.name call₂.software_version)
          = some e₂ ∧
        e₂.kind = .softwareApplication ∧
        e₂.version = some call₂.software_version ∧
        softwareId call₁.program.name call₁.software_version ≠
          softwareId call₂.program.name call₂.software_version) := by
  refine ⟨fun n ver => rfl, ?_, ?_⟩
  · intro root doc₀ call₁ call₂ c₁ c₂ hn hname hver hkind hnp hnb₁ hnb₂ h₁ h₂
    rw [recordOnce_eq] at h₁ h₂
    obtain ⟨e₁, he₁, hke₁, hve₁⟩ := update_crate_ok_software h₁ hkind hnp hnb₁
    have hsid : softwareId call₂.program.name call₂.software_version =
        softwareId call₁.program.name call₁.software_version := by
      rw [hname, hver]
    have hkind₁ : ∀ e, c₁.get
        (softwareId call₂.program.name call₂.software_version) = some e →
        e.kind = .softwareApplication := by
      intro e he
      rw [hsid, he₁] at he
      cases he
      exact hke₁
    obtain ⟨e₂, he₂, hke₂, hve₂⟩ := update_crate_ok_software h₂ hkind₁
      (by rw [hsid]; exact hnp) (by rw [hsid]; exact hnb₂)
    rw [hsid] at he₂
    rw [hver] at hve₂
    have hn₂ : (idsOf c₂.graph).Nodup :=
      update_crate_ok_nodup h₂ (update_crate_ok_nodup h₁ hn)
    exact ⟨e₂, he₂, hke₂, hve₂, length_filter_id_eq_one hn₂ he₂⟩
  · intro root doc₀ call₁ call₂ c₁ c₂ hname hver hkind₁ hnp₁ hnb₁ hkind₂ hnp₂
      hnb₂ hnb₁₂ h₁ h₂
    rw [recordOnce_eq] at h₁ h₂
    obtain ⟨e₁, he₁, hke₁, hve₁⟩ := update_crate_ok_software h₁ hkind₁ hnp₁ hnb₁
    have hne : softwareId call₁.program.name call₁.software_version ≠
        softwareId call₂.program.name call₂.software_version := by
      rw [hname]
      exact softwareId_version_ne (fun hh => hver hh.symm)
    obtain ⟨e₂, he₂, hke₂, hve₂⟩ := update_crate_ok_software h₂ hkind₂ hnp₂ hnb₂
    have he₁' : c₂.get (softwareId call₁.program.name call₁.software_version)
        = some e₁ := by
      refine update_crate_ok_preserve_some h₂ ?_ e₁ he₁
      rw [replacedIds, List.mem_cons, not_or]
      exact ⟨hne, by
        rw [List.mem_append, not_or]
        rw [List.mem_append, not_or] at hnb₁₂
        exact hnb₁₂⟩
    exact ⟨e₁, e₂, he₁', hke₁, hve₁, he₂, hke₂, hve₂, hne⟩

/-- First C4 witness call, version 1.0.0. -/
def c4CallA : RecordCall :=
  { fs := ⟨fun _ => 7, fun _ => "text/plain"⟩
    program := ⟨"myscript", "Example CLI"⟩
    software_version := "1.0.0"
    ioargs := {}
    action_id := "myscript run1"
    start_time := "2026-01-16T12:00:00"
    end_time := "2026-01-16T12:00:05"
    current_user := "alice"
    dataset_license := some "CC-BY-4.0" }

/-- Second C4 witness call, version 2.0.0. -/
def c4CallB : RecordCall :=
  { c4CallA with software_version := "2.0.0", action_id := "myscript run2" }

/-- C4 witness: same name and version collapse to one entity; a version
change yields two distinct entities. -/
theorem c4_software_identity_witness :
    softwareId "myscript" "1.0.0" = "myscript@1.0.0" ∧
    softwareId "myscript" "" = "myscript" ∧
    (∃ c₁ c₂, recordOnce ["work"] none c4CallA = .ok c₁ ∧
      recordOnce ["work"] (some c₁) c4CallA = .ok c₂ ∧
      ∃ e, c₂.get "myscript@1.0.0" = some e ∧
        e.kind = .softwareApplication ∧ e.version = some "1.0.0" ∧
        (c₂.graph.filter (fun x => x.id == "myscript@1.0.0")).length = 1) ∧
    (∃ c₁ c₂, recordOnce ["work"] none c4CallA = .ok c₁ ∧
      recordOnce ["work"] (some c₁) c4CallB = .ok c₂ ∧
      ∃ e₁ e₂, c₂.get "myscript@1.0.0" = some e₁ ∧
        e₁.kind = .softwareApplication ∧ e₁.version = some "1.0.0" ∧
        c₂.get "myscript@2.0.0" = some e₂ ∧
        e₂.kind = .softwareApplication ∧ e₂.version = some "2.0.0" ∧
        ("myscript@1.0.0" : String) ≠ "myscript@2.0.0") := by
  have hfresh : ∀ j : String, ∀ e : Entity,
      ((none : Option Crate).getD {}).get j = some e →
      e.kind = .softwareApplication := by
    intro j e he
    exact Option.noConfusion ((rfl : (none : Option Entity) =
      ((none : Option Crate).getD {}).get j).trans he)
  have h₁ : recordOnce ["work"] none c4CallA =
      .ok ((recordOnce ["work"] none c4CallA).toOption.getD {}) := by rfl
  have h₂ : recordOnce ["work"]
      (some ((recordOnce ["work"] none c4CallA).toOption.getD {})) c4CallA =
      .ok ((recordOnce ["work"]
        (some ((recordOnce ["work"] none c4CallA).toOption.getD {}))
        c4CallA).toOption.getD {}) := by rfl
  have h₂' : recordOnce ["work"]
      (some ((recordOnce ["work"] none c4CallA).toOption.getD {})) c4CallB =
      .ok ((recordOnce ["work"]
        (some ((recordOnce ["work"] none c4CallA).toOption.getD {}))
        c4CallB).toOption.getD {}) := by rfl
  refine ⟨rfl, rfl, ⟨_, _, h₁, h₂, ?_⟩, ⟨_, _, h₁, h₂', ?_⟩⟩
  · exact c4_software_identity.2.1 ["work"] none c4CallA c4CallA _ _
      (by decide) rfl rfl (hfresh _) (by decide) (by decide) (by decide) h₁ h₂
  · exact c4_software_identity.2.2 ["work"] none c4CallA c4CallB _ _
      rfl (by decide) (hfresh _) (by decide) (by decide)
      (by
        intro e he
        have : ((recordOnce ["work"] none c4CallA).toOption.getD {}).get
            "myscript@2.0.0" = none := by rfl
        rw [show softwareId c4CallB.program.name c4CallB.software_version =
          "myscript@2.0.0" from rfl, this] at he
        cases he)
      (by decide) (by decide) (by decide) h₁ h₂'

/-- A single call binding the same in-root path `data` both as an input file
and as an input directory, under two different logical argument names. -/
def c5Call : RecordCall :=
  { fs := ⟨fun _ => 3, fun _ => "application/octet-stream"⟩
    program := ⟨"prog", "demo"⟩
    software_version := "1.0"
    ioargs :=
      { input_files := [⟨"x", ["work", "data"], "as file"⟩]
        input_dirs := [⟨"y", ["work", "data"], "as dir"⟩] }
    action_id := "prog --x data --y data"
    start_time := "2026-01-16T12:00:00"
    end_time := "2026-01-16T12:00:05"
    current_user := "alice"
    dataset_license := some "CC-BY-4.0" }

/-- C5 counterexample: binding the same filesystem path to two different
logical argument names does NOT always yield exactly one entity for that
path — when the two bindings go through a file group and a directory group,
the document ends up with a File entity `data` AND a Dataset entity `data/`,
and the recorded action's `object` list references both of them. -/
theorem c5_counterexample :
    (diskAfter ["work"] none c5Call).elim 0
      (fun c => (c.graph.filter
        (fun e => e.id == "data" || e.id == "data/")).length) = 2 ∧
    (diskAfter ["work"] none c5Call).elim false
      (fun c =>
        ((c.graph.filter (fun e => e.id == "data" &&
          e.kind == EntityKind.file)).length == 1) &&
        ((c.graph.filter (fun e => e.id == "data/" &&
          e.kind == EntityKind.dataset)).length == 1)) = true ∧
    (diskAfter ["work"] none c5Call).elim false
      (fun c =>
        match c.get "prog --x data --y data" with
        | some e => e.object == ["data", "data/"]
        | none => false) = true := by
  exact ⟨rfl, rfl, rfl⟩

/-- C5 (amended): `_unique_by_id` deduplicates by identifier keeping the
first-seen order; binding the same path to two logical argument names within
the file groups of one call yields exactly one File entity for that path;
and a freshly recorded action's `object` and `result` lists never reference
the same identifier twice.  (A path passed through both a file group and a
directory group yields one File and one Directory entity with distinct
identifiers — see the counterexample.) -/
theorem c5_amended_dedup :
    (∀ l : List Entity, ((_unique_by_id l).map (fun e => e.id)).Nodup ∧
      List.Sublist (_unique_by_id l) l) ∧
    (∀ (root : List String) (doc₀ : Option Crate) (call : RecordCall)
      (c' : Crate) (l₁ l₂ : List IOArgumentPath) (a₁ a₂ : IOArgumentPath),
      (idsOf (doc₀.getD {}).graph).Nodup →
      recordOnce root doc₀ call = .ok c' →
      a₁ ∈ call.ioargs.input_files ++ call.ioargs.output_files →
      a₁.name ≠ a₂.name →
      fileIdent root a₁ = fileIdent root a₂ →
      call.ioargs.input_files ++ call.ioargs.output_files = l₁ ++ a₂ :: l₂ →
      (∀ b ∈ l₂, fileIdent root b ≠ fileIdent root a₂) →
      fileIdent root a₂ ∉ dirIdents root call.ioargs →
      (c'.graph.filter (fun x => x.id == fileIdent root a₂)).length = 1) ∧
    (∀ (root : List String) (doc₀ : Option Crate) (call : RecordCall)
      (c' : Crate),
      recordOnce root doc₀ call = .ok c' →
      call.action_id ∉ touchedIds root call.program call.software_version
        call.ioargs call.current_user →
      (doc₀.getD {}).get call.action_id = none →
      ∃ e, c'.get call.action_id = some e ∧ e.kind = .createAction ∧
        e.object.Nodup ∧ e.result.Nodup) := by
  refine ⟨fun l => ⟨uniqueById_ids_nodup l, uniqueById_sublist l⟩, ?_, ?_⟩
  · intro root doc₀ call c' l₁ l₂ a₁ a₂ hn h hmem hname hsame hsplit hlast hno
    rw [recordOnce_eq] at h
    obtain ⟨e, he, -, -, -, -⟩ := update_crate_ok_file h hsplit hlast hno
    exact length_filter_id_eq_one (update_crate_ok_nodup h hn) he
  · intro root doc₀ call c' h ht hnone
    rw [recordOnce_eq] at h
    obtain ⟨e, he, hek, -, -, -, -, -, hobj, hres⟩ :=
      update_crate_ok_action_fresh h ht hnone
    exact ⟨e, he, hek, hobj, hres⟩

/-- A call binding the same path to two logical names, both as files. -/
def c5FileCall : RecordCall :=
  { fs := ⟨fun _ => 5, fun _ => "text/plain"⟩
    program := ⟨"prog", "demo"⟩
    software_version := "1.0"
    ioargs :=
      { input_files := [⟨"x", ["work", "data.txt"], "as input"⟩]
        output_files := [⟨"y", ["work", "data.txt"], "as output"⟩] }
    action_id := "prog --x data.txt --y data.txt"
    start_time := "2026-01-16T12:00:00"
    end_time := "2026-01-16T12:00:05"
    current_user := "alice"
    dataset_license := some "CC-BY-4.0" }

/-- C5 witness: binding one path to two file-group argument names yields one
File entity, and the fresh action's links are duplicate-free. -/
theorem c5_amended_dedup_witness :
    ∃ c', recordOnce ["work"] none c5FileCall = .ok c' ∧
      (c'.graph.filter (fun x => x.id ==
        fileIdent ["work"] ⟨"y", ["work", "data.txt"], "as output"⟩)).length = 1 ∧
      ∃ e, c'.get c5FileCall.action_id = some e ∧ e.kind = .createAction ∧
        e.object.Nodup ∧ e.result.Nodup := by
  have h : recordOnce ["work"] none c5FileCall =
      .ok ((recordOnce ["work"] none c5FileCall).toOption.getD {}) := by rfl
  refine ⟨_, h, ?_, ?_⟩
  · exact c5_amended_dedup.2.1 ["work"] none c5FileCall _
      [⟨"x", ["work", "data.txt"], "as input"⟩] []
      ⟨"x", ["work", "data.txt"], "as input"⟩
      ⟨"y", ["work", "data.txt"], "as output"⟩
      (by decide) h (by decide) (by decide) rfl rfl (by decide) (by decide)
  · exact c5_amended_dedup.2.2 ["work"] none c5FileCall _ h (by decide)
      (by rfl)

/-- `playbackPairs` counts exactly the CreateAction entities with truthy
identifier and `endTime`. -/
theorem playbackPairs_length_aux : ∀ g : List Entity,
    ((g.filter (fun e => e.kind == EntityKind.createAction)).filterMap
      (fun a => if a.id ≠ "" ∧ a.endTime ≠ "" then some (a.endTime, a.id)
        else none)).length =
    (g.filter (fun e => e.kind == EntityKind.createAction &&
      e.id != "" && e.endTime != "")).length := by
  intro g
  induction g with
  | nil => rfl
  | cons x t ih =>
    by_cases hk : x.kind = .createAction
    · rw [List.filter_cons_of_pos (by simpa using hk)]
      by_cases he : x.id ≠ "" ∧ x.endTime ≠ ""
      · rw [List.filterMap_cons_some (by rw [if_pos he]),
          List.filter_cons_of_pos (by simp [hk, he.1, he.2])]
        simp only [List.length_cons, ih]
      · rw [List.filterMap_cons_none (by rw [if_neg he]),
          List.filter_cons_of_neg (by
            rw [not_and_or] at he
            rcases he with he | he <;> simp [hk, not_ne_iff.mp he])]
        exact ih
    · rw [List.filter_cons_of_neg (by simpa using hk),
        List.filter_cons_of_neg (by simp [hk])]
      exact ih

theorem playbackPairs_length (c : Crate) :
    (playbackPairs c).length =
      (c.graph.filter (fun e => e.kind == EntityKind.createAction &&
        e.id != "" && e.endTime != "")).length :=
  playbackPairs_length_aux c.graph

/-- C6: `playback` of a missing document is the empty string; for a document
whose Action entities all carry truthy identifiers and end times, `playback`
joins exactly the `(endTime, id)` pairs of the Action entities, arranged in
ascending `endTime` order — whatever order the document lists them in. -/
theorem c6_playback_order :
    playback none = "" ∧
    (∀ c : Crate,
      (∀ e ∈ c.graph, e.kind = .createAction → e.id ≠ "" ∧ e.endTime ≠ "") →
      ∃ l : List (String × String),
        playback (some c) = String.intercalate "\n" (l.map (fun x => x.2)) ∧
        List.Perm l ((c.graph.filter (fun e => e.kind == EntityKind.createAction)).map
          (fun e => (e.endTime, e.id))) ∧
        l.Pairwise (fun x y => x.1 ≤ y.1)) := by
  refine ⟨rfl, ?_⟩
  intro c hall
  refine ⟨(playbackPairs c).mergeSort (fun a b => a.1 ≤ b.1), rfl, ?_, ?_⟩
  · refine (List.mergeSort_perm _ _).trans ?_
    rw [playbackPairs,
      filterMap_eq_map_of_forall_some (g := fun e => (e.endTime, e.id)) ?_]
    · intro a ha
      have hmem := List.mem_filter.mp ha
      have hk : a.kind = .createAction := by simpa using hmem.2
      obtain ⟨hid, het⟩ := hall a hmem.1 hk
      rw [if_pos ⟨hid, het⟩]
  · have hs := @List.sorted_mergeSort (String × String)
      (fun a b : String × String => (a.1 ≤ b.1 : Bool))
      playback_le_trans playback_le_total (playbackPairs c)
    exact hs.imp (by intro a b hab; simpa using hab)

/-- A document listing two actions in descending `endTime` order. -/
def c6Doc : Crate :=
  { graph :=
      [{ id := "analyzer --arg1", kind := .createAction,
         name := "analyzer --arg1", startTime := "2026-01-17T10:00:10+00:00",
         endTime := "2026-01-17T10:00:15+00:00" },
       { id := "converter --arg2", kind := .createAction,
         name := "converter --arg2", startTime := "2026-01-17T10:00:00+00:00",
         endTime := "2026-01-17T10:00:05+00:00" }] }

/-- C6 witness: the two actions come back in ascending `endTime` order (the
earlier `converter` invocation first) although the document lists them in
the reverse order. -/
theorem c6_playback_order_witness :
    (∀ e ∈ c6Doc.graph, e.kind = .createAction → e.id ≠ "" ∧ e.endTime ≠ "") ∧
    (∃ l : List (String × String),
      playback (some c6Doc) = String.intercalate "\n" (l.map (fun x => x.2)) ∧
      List.Perm l ((c6Doc.graph.filter
        (fun e => e.kind == EntityKind.createAction)).map
        (fun e => (e.endTime, e.id))) ∧
      l.Pairwise (fun x y => x.1 ≤ y.1)) ∧
    playback (some c6Doc) = "converter --arg2" ++ "\n" ++ "analyzer --arg1" :=
  ⟨by decide, c6_playback_order.2 c6Doc (by decide),
    by simp +decide [playback, playbackPairs, c6Doc, List.mergeSort, List.merge]⟩

/-- C9: `playback` never fails; an identifier appears in its output only for
a CreateAction entity whose identifier and `endTime` are both non-empty, and
the number of emitted entries equals the number of CreateAction entities
satisfying both conditions — an Action with a missing/empty `endTime` is
silently omitted rather than reported or returned unsorted. -/
theorem c9_playback_omits_blank_endtime :
    ∀ c : Crate,
      playback (some c) = String.intercalate "\n"
        (((playbackPairs c).mergeSort
          (fun a b => a.1 ≤ b.1)).map (fun x => x.2)) ∧
      (∀ s, s ∈ ((playbackPairs c).mergeSort
          (fun a b => a.1 ≤ b.1)).map (fun x => x.2) →
        ∃ e, e ∈ c.graph ∧ e.kind = .createAction ∧ e.id = s ∧
          e.id ≠ "" ∧ e.endTime ≠ "") ∧
      (playbackPairs c).length =
        (c.graph.filter (fun e => e.kind == EntityKind.createAction &&
          e.id != "" && e.endTime != "")).length := by
  intro c
  refine ⟨rfl, ?_, playbackPairs_length c⟩
  intro s hs
  obtain ⟨p, hp, hps⟩ := List.mem_map.mp hs
  have hp' : p ∈ playbackPairs c := ((List.mergeSort_perm _ _).mem_iff).mp hp
  rw [playbackPairs] at hp'
  obtain ⟨a, ha, hfa⟩ := List.mem_filterMap.mp hp'
  have hmem := List.mem_filter.mp ha
  have hk : a.kind = .createAction := by simpa using hmem.2
  by_cases he : a.id ≠ "" ∧ a.endTime ≠ ""
  · rw [if_pos he] at hfa
    cases hfa
    exact ⟨a, hmem.1, hk, hps, he.1, he.2⟩
  · rw [if_neg he] at hfa
    cases hfa

/-- A document with one well-formed action and one action lacking an
`endTime`, plus an eligible second action. -/
def c9Doc : Crate :=
  { graph :=
      [{ id := "broken --no-end", kind := .createAction,
         name := "broken --no-end", startTime := "2026-01-17T09:00:00+00:00" },
       { id := "good --arg", kind := .createAction,
         name := "good --arg", startTime := "2026-01-17T10:00:00+00:00",
         endTime := "2026-01-17T10:00:05+00:00" }] }

/-- C9 witness: the blank-`endTime` action is silently dropped; only the
eligible action is emitted, and it indeed satisfies both eligibility
conditions. -/
theorem c9_playback_omits_blank_endtime_witness :
    (∃ e, e ∈ c9Doc.graph ∧ e.kind = .createAction ∧ e.id = "good --arg" ∧
      e.id ≠ "" ∧ e.endTime ≠ "") ∧
    (playbackPairs c9Doc).length = 1 ∧
    playback (some c9Doc) = "good --arg" := by
  have hmap : ((playbackPairs c9Doc).mergeSort
      (fun a b => a.1 ≤ b.1)).map (fun x => x.2) = ["good --arg"] := by
    simp +decide [playbackPairs, c9Doc, List.mergeSort, List.merge]
  refine ⟨(c9_playback_omits_blank_endtime c9Doc).2.1 "good --arg" ?_, by rfl,
    by simp +decide [playback, playbackPairs, c9Doc, List.mergeSort, List.merge]⟩
  rw [hmap]
  exact List.mem_singleton_self _

end RocrateActionRecorder
